import Mathlib

/-!
Verification of the mkudns query engine (src/mkares.h) against its
natural-language specification.

The C header implements a single DNS lookup over UDP: it encodes a query
(external encoder `ares_create_query`), iterates an ordered server list,
and for each server opens a UDP socket, connects, and runs a bounded
send/poll/recv/decode retry loop, logging one structured JSON record per
observable operation.

Shallow embedding conventions:
* External calls (encoder, resolver, socket API, poll/recv, parser, address
  formatter, clock, base64 codec) are modelled by an `Env` of oracles.  A
  call made on server index `s` during attempt `a` consults the oracle at
  `(s, a)`; this is faithful because the code is fully sequential and each
  call site is reached at most once per `(s, a)`.
* The mutable `mkares_query` object plus the emitted log and the sequence
  of performed external operations form a `RunState` threaded through the
  functions.  The `calls` trace records each external operation at the
  moment the code performs it (where the source places an `MKARES_HOOK`
  and/or an `MKARES_LOG`), plus `close`, which the source performs silently.
* `MKARES_ABORT()` (contract violations, OOM, malformed `hostent`) is the
  `Step.fatal` outcome: the process stops, so no state is observable.
* C null pointers at the public API surface are modelled with `Option`.
* Machine integers that matter (`ssize_t` results, ares return codes, fds)
  are `Int`; sizes are `Nat`.  `malloc` of the 2048-byte receive buffer is
  modelled as always succeeding (on failure the source aborts the process).
-/

set_option maxHeartbeats 1000000
set_option linter.unnecessarySimpa false
set_option linter.unnecessarySeqFocus false
set_option linter.unusedVariables false

namespace Mkares

/-- DNS record type requested by the query: `ns_t_a` or `ns_t_aaaa`
(`type` field of `mkares_query`, set by `mkares_query_set_AAAA`). -/
inductive RecType where
  | A
  | AAAA
deriving DecidableEq

/-- One configured resolver endpoint (`struct mkares_server`, lines 84-87). -/
structure Server where
  address : String
  port : String
deriving DecidableEq

/-- The query object (`struct mkares_query`, lines 89-100).  The `logfile`
field is the external log sink and is not part of the value model. -/
structure Query where
  addresses : List String := []
  attempts : Nat := 3
  cname : String := ""
  dnsclass : Nat := 1
  id : Nat := 0
  name : String := ""
  servers : List Server := []
  timeout : Int := 3000
  qtype : RecType := .A
deriving DecidableEq

/-- Address family of a decoded `hostent` (`h_addrtype`). -/
inductive Fam where
  | inet
  | inet6
  | other
deriving DecidableEq

/-- A raw (binary) address record: a byte list. -/
abbrev RawAddr : Type := List Nat

/-- Decoded response of `ares_parse_a_reply` / `ares_parse_aaaa_reply`
restricted to the fields the code reads: `h_name`, `h_addrtype`,
`h_length`, `h_addr_list`. -/
structure Hostent where
  h_name : Option String
  h_addrtype : Fam
  h_length : Nat
  h_addr_list : List RawAddr
deriving DecidableEq

/-- Outcome of the external response parser: `ARES_SUCCESS` with a
`hostent`, `ARES_ENODATA`, or any other error code `c` (`c ∉ {0, 1}`). -/
inductive ParseOut where
  | success (h : Hostent)
  | enodata
  | err (c : Int)
deriving DecidableEq

/-- Integer code the parser returns, as logged (`ARES_SUCCESS = 0`,
`ARES_ENODATA = 1`). -/
def parseCode : ParseOut → Int
  | .success _ => 0
  | .enodata => 1
  | .err c => c

/-- Value logged in the `ret` field of a structured record: an integer, or
(for `inet_ntop`) the returned string pointer, possibly null. -/
inductive RetVal where
  | int (i : Int)
  | pstr (s : Option String)
deriving DecidableEq

/-- One structured log record as emitted by `MKARES_LOG` (lines 137-144):
the operation name, its return value, an optional base64 payload, and the
monotonic-clock reading `now` taken at emission time. -/
structure LogEvent where
  func : String
  ret : RetVal
  data : Option String
  now : Nat
deriving DecidableEq

/-- One external operation performed by the engine, tagged with the index
of the server being processed (and the attempt index where relevant). -/
inductive SysCall where
  | createQuery (ret : Int)
  | getaddrinfo (s : Nat) (ret : Int)
  | sockOpen (s : Nat) (fd : Int)
  | sockClose (s : Nat)
  | connectC (s : Nat) (ret : Int)
  | sendC (s a : Nat) (n : Int)
  | pollC (s a : Nat) (ret : Int)
  | recvC (s a : Nat) (n : Int)
  | parseC (s a : Nat) (ret : Int) (isA : Bool)
  | ntopC (s a : Nat) (res : Option String)
deriving DecidableEq

/-- Environment of external oracles.  Indexing: `s` is the position of the
server in `servers`, `a` the attempt number at that server. -/
structure Env where
  clock : Nat → Nat
  base64 : List Nat → String
  createQueryRet : Int
  createQueryBuff : List Nat
  getaddrinfoRet : Nat → Int
  socketRet : Nat → Int
  connectRet : Nat → Int
  sendRet : Nat → Nat → Int
  pollRet : Nat → Nat → Int
  recvRet : Nat → Nat → Int
  recvData : Nat → Nat → List Nat
  parseRet : Nat → Nat → ParseOut
  ntop : Fam → RawAddr → Option String

/-- Mutable execution state: the query object, the log emitted so far, the
operations performed so far, and the number of log emissions (which indexes
the monotonic clock). -/
structure RunState where
  q : Query
  log : List LogEvent
  calls : List SysCall
  tick : Nat
deriving DecidableEq

/-- Result of running a piece of the engine: a value with the final state,
or `fatal` when `MKARES_ABORT()` stopped the process. -/
inductive Step (α : Type) where
  | ok (a : α) (st : RunState)
  | fatal
deriving DecidableEq

/-- Name and `ret` value of the log record emitted for an operation
(`sockClose` emits none; its entry here is unused). -/
def evLog : SysCall → String × RetVal
  | .createQuery r => ("ares_create_query", .int r)
  | .getaddrinfo _ r => ("getaddrinfo", .int r)
  | .sockOpen _ fd => ("socket", .int fd)
  | .sockClose _ => ("", .int 0)
  | .connectC _ r => ("connect", .int r)
  | .sendC _ _ n => ("send", .int n)
  | .pollC _ _ r => ("poll", .int r)
  | .recvC _ _ n => ("recv", .int n)
  | .parseC _ _ r isA =>
      (if isA then "ares_parse_a_reply" else "ares_parse_aaaa_reply", .int r)
  | .ntopC _ _ res => ("inet_ntop", .pstr res)

/-- Log records an operation emits: exactly one, except `close`, which the
source does not log. -/
def expectedLog : SysCall → List (String × RetVal)
  | .sockClose _ => []
  | c => [evLog c]

/-- Perform one external operation: record it in the call trace and emit
its single log record (`MKARES_HOOK` + `MKARES_LOG`), stamping the current
monotonic clock reading. -/
def logCall (env : Env) (st : RunState) (c : SysCall) (data : Option String) :
    RunState :=
  { st with
    calls := st.calls ++ [c]
    log := st.log ++ [⟨(evLog c).1, (evLog c).2, data, env.clock st.tick⟩]
    tick := st.tick + 1 }

/-- Record the silent `close`/`closesocket` call (lines 355-359). -/
def noteClose (st : RunState) (s : Nat) : RunState :=
  { st with calls := st.calls ++ [.sockClose s] }

/-- Model of `mkares_maybe_base64` (lines 187-196): base64 of the first
`count` bytes when `count` is positive, otherwise the empty string. -/
def mkares_maybe_base64 (env : Env) (buff : List Nat) (count : Int) : String :=
  if count ≤ 0 then "" else env.base64 (buff.take count.toNat)

/-- `INT_MAX`, used by the defensive bound check on `recv`'s result. -/
def intMax : Int := 2147483647

/-- The `switch (host->h_addrtype)` check of lines 158-173: the known
families demand the matching `h_length`; anything else aborts. -/
def famLenOk : Fam → Nat → Bool
  | .inet, n => n = 4
  | .inet6, n => n = 16
  | .other, _ => false

/-- Loop body of `mkares_query_complete_` (lines 155-181): for each raw
record, check `h_length` against the family (mismatch or unknown family
aborts), format via `inet_ntop`, log the result, fail the completion on a
null result, otherwise append the presentation string to `addresses`. -/
def completeLoop (env : Env) (s a : Nat) (fam : Fam) (hlen : Nat)
    (st : RunState) : List RawAddr → Step Int
  | [] => .ok 0 st
  | addr :: rest =>
    if famLenOk fam hlen then
      match env.ntop fam addr with
      | none => .ok (-1) (logCall env st (.ntopC s a none) none)
      | some nm =>
          completeLoop env s a fam hlen
            (let st1 := logCall env st (.ntopC s a (some nm)) none
             { st1 with q := { st1.q with addresses := st1.q.addresses ++ [nm] } })
            rest
    else .fatal

/-- Model of `mkares_query_complete_` (lines 148-183): set `cname` from
`h_name` when present, then format-and-append every raw record.  The ghost
indices `s a` tag the trace entries with the server/attempt being
processed. -/
def mkares_query_complete_ (env : Env) (s a : Nat) (st : RunState)
    (host : Hostent) : Step Int :=
  completeLoop env s a host.h_addrtype host.h_length
    (match host.h_name with
     | some n => { st with q := { st.q with cname := n } }
     | none => st)
    host.h_addr_list

/-- Model of `mkares_query_recv_` (lines 200-276): poll (timeout ⇒ -1),
recv (nonpositive ⇒ -1, > INT_MAX ⇒ abort), parse by record type
(other error ⇒ -1, ENODATA ⇒ 0 with no state change, success ⇒ complete). -/
def mkares_query_recv_ (env : Env) (s a : Nat) (st : RunState) (fd : Int) :
    Step Int :=
  if fd = -1 then .fatal
  else
    let st1 := logCall env st (.pollC s a (env.pollRet s a)) none
    if env.pollRet s a ≤ 0 then .ok (-1) st1
    else
      let st2 := logCall env st1 (.recvC s a (env.recvRet s a))
        (some (mkares_maybe_base64 env (env.recvData s a) (env.recvRet s a)))
      if env.recvRet s a ≤ 0 then .ok (-1) st2
      else if intMax < env.recvRet s a then .fatal
      else
        let st3 := logCall env st2
          (.parseC s a (parseCode (env.parseRet s a))
            (match st2.q.qtype with | .A => true | .AAAA => false)) none
        match env.parseRet s a with
        | .err _ => .ok (-1) st3
        | .enodata => .ok 0 st3
        | .success host => mkares_query_complete_ env s a st3 host

/-- Retry loop of `mkares_query_sendrecv_` (lines 300-332): at each
attempt, send the whole query buffer (short or negative send ⇒ the server
is abandoned with -1), then receive; a zero receive outcome ends the loop
with success, otherwise the next attempt runs.  `a` is the attempt index,
`fuel` the remaining attempts. -/
def sendrecvLoop (env : Env) (buff : List Nat) (s : Nat) (fd : Int)
    (st : RunState) : Nat → Nat → Step Int
  | _, 0 => .ok (-1) st
  | a, fuel + 1 =>
    let n := env.sendRet s a
    let st1 := logCall env st (.sendC s a n)
      (some (mkares_maybe_base64 env buff (Int.ofNat buff.length)))
    if n < 0 ∨ n ≠ (buff.length : Int) then .ok (-1) st1
    else
      match mkares_query_recv_ env s a st1 fd with
      | .fatal => .fatal
      | .ok r st2 => if r = 0 then .ok 0 st2
                     else sendrecvLoop env buff s fd st2 (a + 1) fuel

/-- Model of `mkares_query_sendrecv_` (lines 280-334): contract checks,
UDP connect (failure ⇒ -1), then the bounded retry loop with
`q.attempts` attempts. -/
def mkares_query_sendrecv_ (env : Env) (buff : List Nat) (s : Nat)
    (fd : Int) (st : RunState) : Step Int :=
  if buff.length = 0 ∨ fd = -1 then .fatal
  else
    let st1 := logCall env st (.connectC s (env.connectRet s)) none
    if env.connectRet s ≠ 0 then .ok (-1) st1
    else sendrecvLoop env buff s fd st1 0 st1.q.attempts

/-- Model of `mkares_query_try_server_` (lines 338-361): open a datagram
socket (failure ⇒ -1), run send/receive, then close the socket on both
result paths before returning. -/
def mkares_query_try_server_ (env : Env) (buff : List Nat) (s : Nat)
    (st : RunState) : Step Int :=
  if buff.length = 0 then .fatal
  else
    let fd := env.socketRet s
    let st1 := logCall env st (.sockOpen s fd) none
    if fd = -1 then .ok (-1) st1
    else
      match mkares_query_sendrecv_ env buff s fd st1 with
      | .fatal => .fatal
      | .ok r st2 => .ok r (noteClose st2 s)

/-- Loop of `mkares_query_try_each_server_` (lines 370-390): resolve the
`k`-th server numerically (failure ⇒ skip to the next server), try it, and
stop at the first server reporting 0.  The outcome of resolving server `k`
is `env.getaddrinfoRet k`; the resulting `addrinfo` is consumed only by
`socket`/`connect`, which the `Env` also abstracts. -/
def tryEachLoop (env : Env) (buff : List Nat) (st : RunState) :
    Nat → List Server → Step Int
  | _, [] => .ok (-1) st
  | k, _ :: rest =>
    let st1 := logCall env st (.getaddrinfo k (env.getaddrinfoRet k)) none
    if env.getaddrinfoRet k ≠ 0 then tryEachLoop env buff st1 (k + 1) rest
    else
      match mkares_query_try_server_ env buff k st1 with
      | .fatal => .fatal
      | .ok r st2 => if r = 0 then .ok 0 st2
                     else tryEachLoop env buff st2 (k + 1) rest

/-- Model of `mkares_query_try_each_server_` (lines 365-392). -/
def mkares_query_try_each_server_ (env : Env) (buff : List Nat)
    (st : RunState) : Step Int :=
  if buff.length = 0 then .fatal
  else tryEachLoop env buff st 0 st.q.servers

/-- Initial run state for one `perform` call on query object `q`. -/
def initState (q : Query) : RunState := ⟨q, [], [], 0⟩

/-- Body of `mkares_query_perform_nonnull` after the null check (lines
398-416): encode the query via `ares_create_query` (failure ⇒ -1 with no
server contacted; success with an empty buffer would abort), then try each
server in order. -/
def performRun (env : Env) (q : Query) : Step Int :=
  let st1 := logCall env (initState q) (.createQuery env.createQueryRet) none
  if env.createQueryRet ≠ 0 then .ok (-1) st1
  else mkares_query_try_each_server_ env env.createQueryBuff st1

/-- Model of `mkares_query_perform_nonnull` (lines 394-417), including the
abort on a null query pointer. -/
def mkares_query_perform_nonnull (env : Env) : Option Query → Step Int
  | none => .fatal
  | some q => performRun env q

/-! ### The thin C accessor surface (null checks model `MKARES_ABORT`). -/

/-- Result of one C API accessor call: a value, or the process stopped on a
contract violation. -/
inductive CResult (α : Type) where
  | ok (a : α)
  | abortProc
deriving DecidableEq

/-- `mkares_query_new_nonnull` (line 102): a fresh query object with the
defaults of `struct mkares_query`. -/
def mkares_query_new_nonnull : Query := {}

/-- `mkares_query_set_name` (lines 104-109). -/
def mkares_query_set_name : Option Query → Option String → CResult Query
  | some q, some n => .ok { q with name := n }
  | _, _ => .abortProc

/-- `mkares_query_add_server` (lines 111-120). -/
def mkares_query_add_server :
    Option Query → Option String → Option String → CResult Query
  | some q, some a, some p => .ok { q with servers := q.servers ++ [⟨a, p⟩] }
  | _, _, _ => .abortProc

/-- `mkares_query_set_AAAA` (lines 122-127). -/
def mkares_query_set_AAAA : Option Query → CResult Query
  | some q => .ok { q with qtype := .AAAA }
  | none => .abortProc

/-- `mkares_query_set_id` (lines 129-134); the argument is a `uint16_t`. -/
def mkares_query_set_id : Option Query → Nat → CResult Query
  | some q, i => .ok { q with id := i % 65536 }
  | none, _ => .abortProc

/-- `mkares_query_get_cname` (lines 419-424). -/
def mkares_query_get_cname : Option Query → CResult String
  | some q => .ok q.cname
  | none => .abortProc

/-- `mkares_query_get_addresses_size` (lines 426-431). -/
def mkares_query_get_addresses_size : Option Query → CResult Nat
  | some q => .ok q.addresses.length
  | none => .abortProc

/-- `mkares_query_get_address_at` (lines 433-439): aborts on a null query
or an out-of-range index. -/
def mkares_query_get_address_at : Option Query → Nat → CResult String
  | some q, idx =>
      if h : idx < q.addresses.length then .ok (q.addresses.get ⟨idx, h⟩)
      else .abortProc
  | none, _ => .abortProc

/-! ### Derived descriptions of the run, used to state the theorems.

These are specification-side functions computed from the `Env` alone; the
theorems below relate them to the embedded run functions. -/

/-- Presentation strings produced by formatting a raw record list in order,
stopping at the first `inet_ntop` failure, together with the return value
of `mkares_query_complete_`'s loop: `0` when every record formats, `-1`
when some record fails (in which case only the records strictly before the
failing one are produced). -/
def formatAddrs (env : Env) (fam : Fam) : List RawAddr → List String × Int
  | [] => ([], 0)
  | addr :: rest =>
    match env.ntop fam addr with
    | none => ([], -1)
    | some nm =>
      let p := formatAddrs env fam rest
      (nm :: p.1, p.2)

/-- Return value of `mkares_query_recv_` at server `s`, attempt `a`:
`-1` on poll timeout, failed receive, or a parse error; `0` on ENODATA or
a fully formatted response; the completion result otherwise. -/
def recvOut (env : Env) (s a : Nat) : Int :=
  if env.pollRet s a ≤ 0 then -1
  else if env.recvRet s a ≤ 0 then -1
  else
    match env.parseRet s a with
    | .err _ => -1
    | .enodata => 0
    | .success host => (formatAddrs env host.h_addrtype host.h_addr_list).2

/-- What attempt `a` at server `s` makes the retry loop do: `some r` when
the loop returns `r` at this attempt (`-1` exactly on a short or negative
send, `0` on a zero receive outcome), `none` when the loop proceeds to the
next attempt. -/
def attemptOut (env : Env) (bl : Nat) (s a : Nat) : Option Int :=
  if env.sendRet s a < 0 ∨ env.sendRet s a ≠ (bl : Int) then some (-1)
  else if recvOut env s a = 0 then some 0
  else none

/-- Return value of the retry loop started at attempt `a` with `fuel`
remaining attempts. -/
def loopOut (env : Env) (bl : Nat) (s : Nat) : Nat → Nat → Int
  | _, 0 => -1
  | a, fuel + 1 =>
    match attemptOut env bl s a with
    | some r => r
    | none => loopOut env bl s (a + 1) fuel

/-- Return value of `mkares_query_sendrecv_` for server `s` when the query
buffer has length `bl` and `att` attempts are configured. -/
def sdOut (env : Env) (att bl : Nat) (s : Nat) : Int :=
  if env.connectRet s ≠ 0 then -1 else loopOut env bl s 0 att

/-- Return value of `mkares_query_try_server_` for server `s` when the
query buffer has length `bl` and `att` attempts are configured. -/
def serverOut (env : Env) (att bl : Nat) (s : Nat) : Int :=
  if env.socketRet s = -1 then -1 else sdOut env att bl s

/-- Server `s` does not produce success: its numeric resolution fails, or
the transport session on it returns failure. -/
def serverFails (env : Env) (att bl : Nat) (s : Nat) : Prop :=
  env.getaddrinfoRet s ≠ 0 ∨ serverOut env att bl s = -1

/-- Well-formedness of a parsed `hostent`: the address family is one of the
two the parser can produce and `h_length` matches it (c-ares guarantees
this; the code aborts the process otherwise). -/
def hostentWF (h : Hostent) : Prop :=
  (h.h_addrtype = .inet ∧ h.h_length = 4) ∨
  (h.h_addrtype = .inet6 ∧ h.h_length = 16)

/-- Environments matching the guarantees of the real external libraries:
parsed hostents are well-formed, and `recv` into a 2048-byte buffer never
reports more than `INT_MAX` bytes. -/
def wfEnv (env : Env) : Prop :=
  (∀ s a h, env.parseRet s a = .success h → hostentWF h) ∧
  (∀ s a, env.recvRet s a ≤ intMax)

/-- Is this operation a `send` to server `s`? -/
def isSendTo (s : Nat) : SysCall → Bool
  | .sendC s' _ _ => s' = s
  | _ => false

/-- Number of send operations issued to server `s` in a trace. -/
def sendCount (s : Nat) (l : List SysCall) : Nat := l.countP (isSendTo s)

/-- Sequence of server indices passed to `getaddrinfo`, in trace order. -/
def getSeq (l : List SysCall) : List Nat :=
  l.filterMap fun c =>
    match c with
    | .getaddrinfo k _ => some k
    | _ => none

/-- Server index an operation belongs to (`none` for query encoding). -/
def evServer : SysCall → Option Nat
  | .createQuery _ => none
  | .getaddrinfo k _ => some k
  | .sockOpen k _ => some k
  | .sockClose k => some k
  | .connectC k _ => some k
  | .sendC k _ _ => some k
  | .pollC k _ _ => some k
  | .recvC k _ _ => some k
  | .parseC k _ _ _ => some k
  | .ntopC k _ _ => some k

/-- Socket-accounting automaton: number of open sockets after an
operation, `none` once a second concurrent open or an unmatched close has
been seen.  A failed `socket()` call (`fd = -1`) opens nothing. -/
def sockStep : Option Nat → SysCall → Option Nat
  | none, _ => none
  | some c, .sockOpen _ fd => if fd = -1 then some c else if c = 0 then some 1 else none
  | some c, .sockClose _ => if c = 1 then some 0 else none
  | some c, _ => some c

/-- Number of sockets open after executing a trace, when along the whole
trace at most one socket was ever open and closes were matched. -/
def openAfter (l : List SysCall) : Option Nat := l.foldl sockStep (some 0)

/-- Log-trace invariant: the clock index equals the number of records, the
records are exactly one per logged operation, in order, carrying the
operation's name and return value, and the `k`-th record carries the
monotonic clock reading at emission `k`. -/
def Inv (env : Env) (st : RunState) : Prop :=
  st.tick = st.log.length ∧
  st.log.map (fun e => (e.func, e.ret)) = st.calls.flatMap expectedLog ∧
  st.log.map LogEvent.now = (List.range st.log.length).map env.clock

/-- A presentation string can appear in `addresses` only as the successful
formatting of a raw record of some successfully parsed response. -/
def addrProv (env : Env) (x : String) : Prop :=
  ∃ s a h r, env.parseRet s a = .success h ∧ r ∈ h.h_addr_list ∧
    env.ntop h.h_addrtype r = some x

/-- The configuration fields of the query object are untouched. -/
def qFieldsEq (q q' : Query) : Prop :=
  q'.attempts = q.attempts ∧ q'.name = q.name ∧ q'.servers = q.servers ∧
  q'.timeout = q.timeout ∧ q'.qtype = q.qtype ∧ q'.id = q.id ∧
  q'.dnsclass = q.dnsclass

/-- Evolution of the query object along a run: `addresses` only grows, by
entries formatted from parsed records; `cname` is either untouched or the
host name of some successfully parsed response; configuration fields are
untouched. -/
def QExt (env : Env) (q q' : Query) : Prop :=
  (∃ t, q'.addresses = q.addresses ++ t ∧ ∀ x ∈ t, addrProv env x) ∧
  (q'.cname = q.cname ∨
    ∃ s a h, env.parseRet s a = .success h ∧ h.h_name = some q'.cname) ∧
  qFieldsEq q q'

/-- Operations `mkares_query_recv_` can perform at server `s`. -/
def innerEv (s : Nat) : SysCall → Prop
  | .pollC s' _ _ => s' = s
  | .recvC s' _ _ => s' = s
  | .parseC s' _ _ _ => s' = s
  | .ntopC s' _ _ => s' = s
  | _ => False

/-- Operations the retry loop can perform at server `s`. -/
def attEv (s : Nat) : SysCall → Prop
  | .sendC s' _ _ => s' = s
  | c => innerEv s c

/-- Operations `mkares_query_sendrecv_` can perform at server `s`. -/
def sdEv (s : Nat) : SysCall → Prop
  | .connectC s' _ => s' = s
  | c => attEv s c

/-- Operations `mkares_query_try_server_` can perform at server `s`. -/
def srvEv (s : Nat) : SysCall → Prop
  | .sockOpen s' _ => s' = s
  | .sockClose s' => s' = s
  | c => sdEv s c

/-- Operations the server loop can perform on servers `lo ≤ j < hi`. -/
def anyEv (lo hi : Nat) (c : SysCall) : Prop :=
  ∃ j, lo ≤ j ∧ j < hi ∧ (srvEv j c ∨ ∃ rr, c = .getaddrinfo j rr)

/-- Bundle proved about every run fragment that returns: the call trace
only grows, by operations of class `ev`; the log invariant is preserved;
and the query object evolves by `QExt`. -/
def MOut (env : Env) (ev : SysCall → Prop) (st st' : RunState) : Prop :=
  (∃ dc, st'.calls = st.calls ++ dc ∧ ∀ c ∈ dc, ev c) ∧
  (Inv env st → Inv env st') ∧
  QExt env st.q st'.q

/-! ### Basic lemmas about the state-evolution relations. -/

theorem qFieldsEq_refl (q : Query) : qFieldsEq q q := by
  simp [qFieldsEq]

theorem qFieldsEq_trans {q q' q'' : Query} (h : qFieldsEq q q')
    (h' : qFieldsEq q' q'') : qFieldsEq q q'' := by
  obtain ⟨a1, a2, a3, a4, a5, a6, a7⟩ := h
  obtain ⟨b1, b2, b3, b4, b5, b6, b7⟩ := h'
  exact ⟨b1.trans a1, b2.trans a2, b3.trans a3, b4.trans a4, b5.trans a5,
    b6.trans a6, b7.trans a7⟩

theorem QExt_refl (env : Env) (q : Query) : QExt env q q :=
  ⟨⟨[], by simp⟩, Or.inl rfl, qFieldsEq_refl q⟩

theorem QExt_trans {env : Env} {q q' q'' : Query} (h : QExt env q q')
    (h' : QExt env q' q'') : QExt env q q'' := by
  obtain ⟨⟨t, ht, hprov⟩, hcn, hf⟩ := h
  obtain ⟨⟨t', ht', hprov'⟩, hcn', hf'⟩ := h'
  refine ⟨⟨t ++ t', by simp [ht', ht], ?_⟩, ?_, qFieldsEq_trans hf hf'⟩
  · intro x hx
    rcases List.mem_append.mp hx with hx | hx
    · exact hprov x hx
    · exact hprov' x hx
  · rcases hcn' with hcn' | hcn'
    · rcases hcn with hcn | hcn
      · exact Or.inl (hcn'.trans hcn)
      · exact Or.inr (hcn' ▸ hcn)
    · exact Or.inr hcn'

theorem MOut_refl (env : Env) (ev : SysCall → Prop) (st : RunState) :
    MOut env ev st st :=
  ⟨⟨[], by simp⟩, id, QExt_refl env st.q⟩

theorem MOut_trans {env : Env} {ev : SysCall → Prop} {st st' st'' : RunState}
    (h : MOut env ev st st') (h' : MOut env ev st' st'') :
    MOut env ev st st'' := by
  obtain ⟨⟨dc, hdc, hev⟩, hinv, hq⟩ := h
  obtain ⟨⟨dc', hdc', hev'⟩, hinv', hq'⟩ := h'
  refine ⟨⟨dc ++ dc', by simp [hdc', hdc], ?_⟩, fun h => hinv' (hinv h),
    QExt_trans hq hq'⟩
  intro c hc
  rcases List.mem_append.mp hc with hc | hc
  · exact hev c hc
  · exact hev' c hc

theorem MOut_mono {env : Env} {ev ev' : SysCall → Prop} {st st' : RunState}
    (h : MOut env ev st st') (hmono : ∀ c, ev c → ev' c) :
    MOut env ev' st st' := by
  obtain ⟨⟨dc, hdc, hev⟩, hinv, hq⟩ := h
  exact ⟨⟨dc, hdc, fun c hc => hmono c (hev c hc)⟩, hinv, hq⟩

theorem Inv_initState (env : Env) (q : Query) : Inv env (initState q) := by
  refine ⟨rfl, rfl, rfl⟩

theorem Inv_qUpdate (env : Env) (st : RunState) (q' : Query) :
    Inv env { st with q := q' } ↔ Inv env st := Iff.rfl

theorem logCall_MOut (env : Env) (st : RunState) (c : SysCall)
    (d : Option String) (ev : SysCall → Prop) (hev : ev c)
    (hexp : expectedLog c = [evLog c]) :
    MOut env ev st (logCall env st c d) := by
  refine ⟨⟨[c], rfl, by simpa using hev⟩, ?_, QExt_refl env st.q⟩
  rintro ⟨h1, h2, h3⟩
  refine ⟨?_, ?_, ?_⟩
  · simp [logCall, h1]
  · simp [logCall, h2, hexp]
  · simp only [logCall, List.map_append, List.length_append, List.map_cons,
      List.map_nil, List.length_cons, List.length_nil]
    rw [h3, h1, List.range_succ, List.map_append]
    simp

theorem noteClose_MOut (env : Env) (st : RunState) (s : Nat)
    (ev : SysCall → Prop) (hev : ev (.sockClose s)) :
    MOut env ev st (noteClose st s) := by
  refine ⟨⟨[.sockClose s], rfl, by simpa using hev⟩, ?_, QExt_refl env st.q⟩
  rintro ⟨h1, h2, h3⟩
  refine ⟨h1, ?_, h3⟩
  simp [noteClose, h2, expectedLog]

/-! ### Event-class inclusions and socket-automaton helpers. -/

theorem innerEv_attEv (s : Nat) (c : SysCall) (h : innerEv s c) : attEv s c := by
  cases c <;> simpa [innerEv, attEv] using h

theorem attEv_sdEv (s : Nat) (c : SysCall) (h : attEv s c) : sdEv s c := by
  cases c <;> simpa [innerEv, attEv, sdEv] using h

theorem sdEv_srvEv (s : Nat) (c : SysCall) (h : sdEv s c) : srvEv s c := by
  cases c <;> simpa [innerEv, attEv, sdEv, srvEv] using h

theorem sockStep_sdEv (s : Nat) (c : SysCall) (h : sdEv s c)
    (v : Option Nat) : sockStep v c = v := by
  cases v with
  | none => rfl
  | some n => cases c <;> simp_all [sdEv, attEv, innerEv, sockStep]

theorem foldl_sockStep_sdEv (s : Nat) (dc : List SysCall)
    (h : ∀ c ∈ dc, sdEv s c) (v : Option Nat) :
    List.foldl sockStep v dc = v := by
  induction dc generalizing v with
  | nil => rfl
  | cons c rest ih =>
    rw [List.foldl_cons, sockStep_sdEv s c (h c (by simp)) v]
    exact ih (fun c' hc' => h c' (by simp [hc'])) v

/-! ### Master lemmas: each run fragment that returns evolves the state by
appending trace events of its class, preserving the log invariant, and
extending the query object per `QExt`. -/

theorem completeLoop_master (env : Env) (s a : Nat) (fam : Fam) (hlen : Nat)
    (addrs : List RawAddr) :
    ∀ st r st', completeLoop env s a fam hlen st addrs = .ok r st' →
      (∃ dc, st'.calls = st.calls ++ dc ∧ ∀ c ∈ dc, ∃ x, c = .ntopC s a x) ∧
      (Inv env st → Inv env st') ∧
      (∃ t, st'.q.addresses = st.q.addresses ++ t ∧
        ∀ x ∈ t, ∃ rec ∈ addrs, env.ntop fam rec = some x) ∧
      st'.q.cname = st.q.cname ∧ qFieldsEq st.q st'.q := by
  induction addrs with
  | nil =>
    intro st r st' h
    simp only [completeLoop, Step.ok.injEq] at h
    obtain ⟨-, rfl⟩ := h
    exact ⟨⟨[], by simp⟩, id, ⟨[], by simp⟩, rfl, qFieldsEq_refl _⟩
  | cons addr rest ih =>
    intro st r st' h
    simp only [completeLoop] at h
    by_cases hf : famLenOk fam hlen
    · rw [if_pos hf] at h
      cases hnt : env.ntop fam addr with
      | none =>
        rw [hnt] at h
        simp only [Step.ok.injEq] at h
        obtain ⟨-, rfl⟩ := h
        have hm := logCall_MOut env st (.ntopC s a none) none
          (fun c => ∃ x, c = .ntopC s a x) ⟨none, rfl⟩ rfl
        obtain ⟨hdc, hinv, -⟩ := hm
        exact ⟨hdc, hinv, ⟨[], by simp [logCall]⟩, rfl, qFieldsEq_refl _⟩
      | some nm =>
        rw [hnt] at h
        obtain ⟨⟨dc, hdc, hdcev⟩, hinv, ⟨t, ht, htprov⟩, hcn, hfe⟩ :=
          ih _ _ _ h
        have hm := logCall_MOut env st (.ntopC s a (some nm)) none
          (fun c => ∃ x, c = .ntopC s a x) ⟨some nm, rfl⟩ rfl
        obtain ⟨⟨dc0, hdc0, hdc0ev⟩, hinv0, -⟩ := hm
        refine ⟨⟨dc0 ++ dc, ?_, ?_⟩, ?_, ⟨nm :: t, ?_, ?_⟩, ?_, ?_⟩
        · rw [← List.append_assoc, ← hdc0]
          simpa using hdc
        · intro c hc
          rcases List.mem_append.mp hc with hc | hc
          · exact hdc0ev c hc
          · exact hdcev c hc
        · intro h0
          exact hinv ((Inv_qUpdate env _ _).mpr (hinv0 h0))
        · simpa [logCall] using ht
        · intro x hx
          rcases List.mem_cons.mp hx with rfl | hx
          · exact ⟨addr, by simp, hnt⟩
          · obtain ⟨rec, hrec, hrec2⟩ := htprov x hx
            exact ⟨rec, by simp [hrec], hrec2⟩
        · simpa [logCall] using hcn
        · have : qFieldsEq st.q
              (let st1 := logCall env st (.ntopC s a (some nm)) none
               ({ st1 with
                  q := { st1.q with
                         addresses := st1.q.addresses ++ [nm] } } :
                  RunState)).q := by
            simp [logCall, qFieldsEq]
          exact qFieldsEq_trans this hfe
    · rw [if_neg hf] at h
      exact absurd h (by simp)

theorem complete_master {env : Env} {s a : Nat} {st : RunState}
    {host : Hostent} {r : Int} {st' : RunState}
    (hp : env.parseRet s a = .success host)
    (h : mkares_query_complete_ env s a st host = .ok r st') :
    MOut env (innerEv s) st st' := by
  unfold mkares_query_complete_ at h
  obtain ⟨⟨dc, hdc, hdcev⟩, hinv, ⟨t, ht, htprov⟩, hcn, hfe⟩ :=
    completeLoop_master env s a host.h_addrtype host.h_length
      host.h_addr_list _ _ _ h
  cases hname : host.h_name with
  | none =>
    rw [hname] at hdc hinv ht hcn hfe
    refine ⟨⟨dc, hdc, ?_⟩, hinv, ⟨t, ht, ?_⟩, Or.inl hcn, hfe⟩
    · intro c hc
      obtain ⟨x, rfl⟩ := hdcev c hc
      simp [innerEv]
    · intro x hx
      obtain ⟨rec, hrec, hrec2⟩ := htprov x hx
      exact ⟨s, a, host, rec, hp, hrec, hrec2⟩
  | some n =>
    rw [hname] at hdc hinv ht hcn hfe
    refine ⟨⟨dc, hdc, ?_⟩, ?_, ⟨t, ht, ?_⟩, Or.inr ⟨s, a, host, hp, ?_⟩, ?_⟩
    · intro c hc
      obtain ⟨x, rfl⟩ := hdcev c hc
      simp [innerEv]
    · intro h0
      exact hinv ((Inv_qUpdate env _ _).mpr h0)
    · intro x hx
      obtain ⟨rec, hrec, hrec2⟩ := htprov x hx
      exact ⟨s, a, host, rec, hp, hrec, hrec2⟩
    · rw [hname, hcn]
    · obtain ⟨a1, a2, a3, a4, a5, a6, a7⟩ := hfe
      exact ⟨a1, a2, a3, a4, a5, a6, a7⟩

theorem recv_master {env : Env} {s a : Nat} {st : RunState} {fd : Int}
    {r : Int} {st' : RunState}
    (h : mkares_query_recv_ env s a st fd = .ok r st') :
    MOut env (innerEv s) st st' := by
  unfold mkares_query_recv_ at h
  by_cases hfd : fd = -1
  · rw [if_pos hfd] at h; exact absurd h (by simp)
  rw [if_neg hfd] at h
  simp only at h
  have m1 := logCall_MOut env st (.pollC s a (env.pollRet s a)) none
    (innerEv s) (by simp [innerEv]) rfl
  by_cases hpoll : env.pollRet s a ≤ 0
  · rw [if_pos hpoll] at h
    simp only [Step.ok.injEq] at h
    obtain ⟨-, rfl⟩ := h
    exact m1
  rw [if_neg hpoll] at h
  have m2 := logCall_MOut env (logCall env st (.pollC s a (env.pollRet s a)) none)
    (.recvC s a (env.recvRet s a))
    (some (mkares_maybe_base64 env (env.recvData s a) (env.recvRet s a)))
    (innerEv s) (by simp [innerEv]) rfl
  by_cases hrecv : env.recvRet s a ≤ 0
  · rw [if_pos hrecv] at h
    simp only [Step.ok.injEq] at h
    obtain ⟨-, rfl⟩ := h
    exact MOut_trans m1 m2
  rw [if_neg hrecv] at h
  by_cases hbig : intMax < env.recvRet s a
  · rw [if_pos hbig] at h; exact absurd h (by simp)
  rw [if_neg hbig] at h
  have m3 := logCall_MOut env
    (logCall env (logCall env st (.pollC s a (env.pollRet s a)) none)
      (.recvC s a (env.recvRet s a))
      (some (mkares_maybe_base64 env (env.recvData s a) (env.recvRet s a))))
    (.parseC s a (parseCode (env.parseRet s a))
      (match st.q.qtype with | .A => true | .AAAA => false)) none
    (innerEv s) (by simp [innerEv]) rfl
  have m12 := MOut_trans (MOut_trans m1 m2) m3
  cases hp : env.parseRet s a with
  | err c =>
    rw [hp] at h
    simp only [Step.ok.injEq] at h
    obtain ⟨-, rfl⟩ := h
    simpa [hp] using m12
  | enodata =>
    rw [hp] at h
    simp only [Step.ok.injEq] at h
    obtain ⟨-, rfl⟩ := h
    simpa [hp] using m12
  | success host =>
    rw [hp] at h
    have m4 := complete_master hp h
    exact MOut_trans (by simpa [hp] using m12) m4

theorem loop_master {env : Env} {buff : List Nat} {s : Nat} {fd : Int}
    (fuel : Nat) :
    ∀ a st r st', sendrecvLoop env buff s fd st a fuel = .ok r st' →
      MOut env (attEv s) st st' := by
  induction fuel with
  | zero =>
    intro a st r st' h
    simp only [sendrecvLoop, Step.ok.injEq] at h
    obtain ⟨-, rfl⟩ := h
    exact MOut_refl env _ st
  | succ fuel ih =>
    intro a st r st' h
    simp only [sendrecvLoop] at h
    have m1 := logCall_MOut env st (.sendC s a (env.sendRet s a))
      (some (mkares_maybe_base64 env buff (Int.ofNat buff.length)))
      (attEv s) (by simp [attEv]) rfl
    by_cases hshort : env.sendRet s a < 0 ∨ env.sendRet s a ≠ (buff.length : Int)
    · rw [if_pos hshort] at h
      simp only [Step.ok.injEq] at h
      obtain ⟨-, rfl⟩ := h
      exact m1
    rw [if_neg hshort] at h
    cases hr : mkares_query_recv_ env s a
        (logCall env st (.sendC s a (env.sendRet s a))
          (some (mkares_maybe_base64 env buff (Int.ofNat buff.length)))) fd with
    | fatal => rw [hr] at h; exact absurd h (by simp)
    | ok r2 st2 =>
      rw [hr] at h
      dsimp only at h
      have m2 := MOut_mono (recv_master hr) (innerEv_attEv s)
      by_cases hr2 : r2 = 0
      · rw [if_pos hr2] at h
        simp only [Step.ok.injEq] at h
        obtain ⟨-, rfl⟩ := h
        exact MOut_trans m1 m2
      · rw [if_neg hr2] at h
        exact MOut_trans (MOut_trans m1 m2) (ih _ _ _ _ h)

theorem sendrecv_master {env : Env} {buff : List Nat} {s : Nat} {fd : Int}
    {st : RunState} {r : Int} {st' : RunState}
    (h : mkares_query_sendrecv_ env buff s fd st = .ok r st') :
    MOut env (sdEv s) st st' := by
  unfold mkares_query_sendrecv_ at h
  by_cases hz : buff.length = 0 ∨ fd = -1
  · rw [if_pos hz] at h; exact absurd h (by simp)
  rw [if_neg hz] at h
  simp only at h
  have m1 := logCall_MOut env st (.connectC s (env.connectRet s)) none
    (sdEv s) (by simp [sdEv]) rfl
  by_cases hc : env.connectRet s ≠ 0
  · rw [if_pos hc] at h
    simp only [Step.ok.injEq] at h
    obtain ⟨-, rfl⟩ := h
    exact m1
  · rw [if_neg hc] at h
    exact MOut_trans m1
      (MOut_mono (loop_master _ _ _ _ _ h) (attEv_sdEv s))

theorem tryServer_master {env : Env} {buff : List Nat} {s : Nat}
    {st : RunState} {r : Int} {st' : RunState}
    (h : mkares_query_try_server_ env buff s st = .ok r st') :
    MOut env (srvEv s) st st' ∧
      (openAfter st.calls = some 0 → openAfter st'.calls = some 0) := by
  unfold mkares_query_try_server_ at h
  by_cases hz : buff.length = 0
  · rw [if_pos hz] at h; exact absurd h (by simp)
  rw [if_neg hz] at h
  simp only at h
  have m1 := logCall_MOut env st (.sockOpen s (env.socketRet s)) none
    (srvEv s) (by simp [srvEv]) rfl
  by_cases hfd : env.socketRet s = -1
  · rw [if_pos hfd] at h
    simp only [Step.ok.injEq] at h
    obtain ⟨-, rfl⟩ := h
    refine ⟨m1, ?_⟩
    intro h0
    rw [openAfter] at h0 ⊢
    simp only [logCall, List.foldl_append]
    rw [h0]
    simp [sockStep, hfd]
  rw [if_neg hfd] at h
  cases hsd : mkares_query_sendrecv_ env buff s (env.socketRet s)
      (logCall env st (.sockOpen s (env.socketRet s)) none) with
  | fatal => rw [hsd] at h; exact absurd h (by simp)
  | ok r2 st2 =>
    rw [hsd] at h
    simp only [Step.ok.injEq] at h
    obtain ⟨-, rfl⟩ := h
    have m2 := sendrecv_master hsd
    obtain ⟨dc, hdc, hdcev⟩ := m2.1
    refine ⟨MOut_trans (MOut_trans m1 (MOut_mono m2 (sdEv_srvEv s)))
      (noteClose_MOut env st2 s (srvEv s) (by simp [srvEv])), ?_⟩
    intro h0
    have h1 : openAfter (logCall env st (.sockOpen s (env.socketRet s))
        none).calls = some 1 := by
      simp [logCall, openAfter, List.foldl_append] at h0 ⊢
      rw [h0]
      simp [sockStep, hfd]
    have h2 : openAfter st2.calls = some 1 := by
      rw [hdc, openAfter, List.foldl_append]
      rw [openAfter] at h1
      rw [h1]
      exact foldl_sockStep_sdEv s dc hdcev _
    simp [noteClose, openAfter, List.foldl_append]
    rw [openAfter] at h2
    rw [h2]
    simp [sockStep]

theorem sockStep_get (k : Nat) (rr : Int) (v : Option Nat) :
    sockStep v (.getaddrinfo k rr) = v := by
  cases v <;> rfl

theorem anyEv_mono {lo hi lo' hi' : Nat} (h1 : lo' ≤ lo) (h2 : hi ≤ hi')
    (c : SysCall) (h : anyEv lo hi c) : anyEv lo' hi' c := by
  obtain ⟨j, hj1, hj2, hj3⟩ := h
  exact ⟨j, le_trans h1 hj1, lt_of_lt_of_le hj2 h2, hj3⟩

theorem tryEachLoop_master {env : Env} {buff : List Nat}
    (srv : List Server) :
    ∀ k st r st', tryEachLoop env buff st k srv = .ok r st' →
      MOut env (anyEv k (k + srv.length)) st st' ∧
        (openAfter st.calls = some 0 → openAfter st'.calls = some 0) := by
  induction srv with
  | nil =>
    intro k st r st' h
    simp only [tryEachLoop, Step.ok.injEq] at h
    obtain ⟨-, rfl⟩ := h
    exact ⟨MOut_refl env _ st, fun h0 => h0⟩
  | cons s0 rest ih =>
    intro k st r st' h
    simp only [tryEachLoop] at h
    have m1 := logCall_MOut env st (.getaddrinfo k (env.getaddrinfoRet k)) none
      (anyEv k (k + (s0 :: rest).length))
      ⟨k, le_refl k, by simp, Or.inr ⟨env.getaddrinfoRet k, rfl⟩⟩ rfl
    have hsock1 : openAfter st.calls = some 0 →
        openAfter (logCall env st (.getaddrinfo k (env.getaddrinfoRet k))
          none).calls = some 0 := by
      intro h0
      rw [openAfter] at h0 ⊢
      simp only [logCall, List.foldl_append]
      rw [h0]
      simp [sockStep_get]
    by_cases hg : env.getaddrinfoRet k ≠ 0
    · rw [if_pos hg] at h
      obtain ⟨mrest, hsockrest⟩ := ih (k + 1) _ _ _ h
      refine ⟨MOut_trans m1 (MOut_mono mrest ?_), fun h0 => hsockrest (hsock1 h0)⟩
      intro c hc
      exact anyEv_mono (Nat.le_succ k) (by simp [Nat.succ_add]; omega) c hc
    rw [if_neg hg] at h
    cases hts : mkares_query_try_server_ env buff k
        (logCall env st (.getaddrinfo k (env.getaddrinfoRet k)) none) with
    | fatal => rw [hts] at h; exact absurd h (by simp)
    | ok r2 st2 =>
      rw [hts] at h
      dsimp only at h
      obtain ⟨m2, hsock2⟩ := tryServer_master hts
      have m2' := MOut_mono m2 (fun c hc =>
        (⟨k, le_refl k, by simp, Or.inl hc⟩ : anyEv k (k + (s0 :: rest).length) c))
      by_cases hr2 : r2 = 0
      · rw [if_pos hr2] at h
        simp only [Step.ok.injEq] at h
        obtain ⟨-, rfl⟩ := h
        exact ⟨MOut_trans m1 m2', fun h0 => hsock2 (hsock1 h0)⟩
      · rw [if_neg hr2] at h
        obtain ⟨mrest, hsockrest⟩ := ih (k + 1) _ _ _ h
        refine ⟨MOut_trans (MOut_trans m1 m2') (MOut_mono mrest ?_),
          fun h0 => hsockrest (hsock2 (hsock1 h0))⟩
        intro c hc
        exact anyEv_mono (Nat.le_succ k) (by simp [Nat.succ_add]; omega) c hc

theorem performRun_master {env : Env} {q : Query} {r : Int} {st' : RunState}
    (h : performRun env q = .ok r st') :
    QExt env q st'.q ∧ Inv env st' ∧ openAfter st'.calls = some 0 := by
  unfold performRun at h
  dsimp only at h
  have m1 := logCall_MOut env (initState q) (.createQuery env.createQueryRet)
    none (fun _ => True) trivial rfl
  have hinv1 : Inv env (logCall env (initState q)
      (.createQuery env.createQueryRet) none) :=
    m1.2.1 (Inv_initState env q)
  have hsock1 : openAfter (logCall env (initState q)
      (.createQuery env.createQueryRet) none).calls = some 0 := by
    simp [logCall, initState, openAfter, sockStep]
  by_cases hret : env.createQueryRet ≠ 0
  · rw [if_pos hret] at h
    simp only [Step.ok.injEq] at h
    obtain ⟨-, rfl⟩ := h
    exact ⟨m1.2.2, hinv1, hsock1⟩
  rw [if_neg hret] at h
  unfold mkares_query_try_each_server_ at h
  by_cases hz : env.createQueryBuff.length = 0
  · rw [if_pos hz] at h; exact absurd h (by simp)
  rw [if_neg hz] at h
  obtain ⟨m2, hsock2⟩ := tryEachLoop_master _ _ _ _ _ h
  exact ⟨QExt_trans m1.2.2 m2.2.2, m2.2.1 hinv1, hsock2 hsock1⟩

/-! ### Mirror lemmas: the return value of each run fragment equals the
corresponding derived function of the environment. -/

theorem famLenOk_of_WF {host : Hostent} (hwf : hostentWF host) :
    famLenOk host.h_addrtype host.h_length = true := by
  rcases hwf with ⟨h1, h2⟩ | ⟨h1, h2⟩ <;> rw [h1, h2] <;> rfl

theorem completeLoop_mirror (env : Env) (s a : Nat) (fam : Fam) (hlen : Nat)
    (hf : famLenOk fam hlen = true) (addrs : List RawAddr) :
    ∀ st, ∃ st', completeLoop env s a fam hlen st addrs =
        .ok (formatAddrs env fam addrs).2 st' ∧
      st'.q.addresses = st.q.addresses ++ (formatAddrs env fam addrs).1 ∧
      st'.q.cname = st.q.cname := by
  induction addrs with
  | nil =>
    intro st
    exact ⟨st, by simp [completeLoop, formatAddrs], by simp [formatAddrs], rfl⟩
  | cons addr rest ih =>
    intro st
    cases hnt : env.ntop fam addr with
    | none =>
      refine ⟨logCall env st (.ntopC s a none) none, ?_, ?_, ?_⟩
      · simp [completeLoop, hf, hnt, formatAddrs]
      · simp [formatAddrs, hnt, logCall]
      · rfl
    | some nm =>
      obtain ⟨st', h1, h2, h3⟩ := ih
        (let st1 := logCall env st (.ntopC s a (some nm)) none
         { st1 with q := { st1.q with addresses := st1.q.addresses ++ [nm] } })
      refine ⟨st', ?_, ?_, ?_⟩
      · simp only [completeLoop, hf, if_true, hnt]
        rw [h1]
        simp [formatAddrs, hnt]
      · rw [h2]
        simp [formatAddrs, hnt, logCall]
      · rw [h3]
        simp [logCall]

theorem complete_mirror (env : Env) (s a : Nat) (st : RunState)
    (host : Hostent) (hwf : hostentWF host) :
    ∃ st', mkares_query_complete_ env s a st host =
        .ok (formatAddrs env host.h_addrtype host.h_addr_list).2 st' ∧
      st'.q.addresses =
        st.q.addresses ++ (formatAddrs env host.h_addrtype host.h_addr_list).1 ∧
      st'.q.cname =
        (match host.h_name with | some n => n | none => st.q.cname) := by
  unfold mkares_query_complete_
  cases hname : host.h_name with
  | none =>
    obtain ⟨st', h1, h2, h3⟩ := completeLoop_mirror env s a host.h_addrtype
      host.h_length (famLenOk_of_WF hwf) host.h_addr_list st
    exact ⟨st', h1, h2, h3⟩
  | some n =>
    obtain ⟨st', h1, h2, h3⟩ := completeLoop_mirror env s a host.h_addrtype
      host.h_length (famLenOk_of_WF hwf) host.h_addr_list
      { st with q := { st.q with cname := n } }
    exact ⟨st', h1, h2, h3⟩

theorem recv_mirror (env : Env) (s a : Nat) (st : RunState) (fd : Int)
    (hwf : wfEnv env) (hfd : fd ≠ -1) :
    ∃ st', mkares_query_recv_ env s a st fd = .ok (recvOut env s a) st' := by
  unfold mkares_query_recv_ recvOut
  rw [if_neg hfd]
  dsimp only
  by_cases hpoll : env.pollRet s a ≤ 0
  · rw [if_pos hpoll, if_pos hpoll]
    exact ⟨_, rfl⟩
  rw [if_neg hpoll, if_neg hpoll]
  by_cases hrecv : env.recvRet s a ≤ 0
  · rw [if_pos hrecv, if_pos hrecv]
    exact ⟨_, rfl⟩
  rw [if_neg hrecv, if_neg hrecv]
  rw [if_neg (not_lt.mpr (hwf.2 s a))]
  cases hp : env.parseRet s a with
  | err c => exact ⟨_, rfl⟩
  | enodata => exact ⟨_, rfl⟩
  | success host =>
    obtain ⟨st', h1, -, -⟩ := complete_mirror env s a _ host (hwf.1 s a host hp)
    exact ⟨st', h1⟩

theorem loop_mirror {env : Env} {buff : List Nat} {s : Nat} {fd : Int}
    (hwf : wfEnv env) (hfd : fd ≠ -1) (fuel : Nat) :
    ∀ a st, ∃ st', sendrecvLoop env buff s fd st a fuel =
      .ok (loopOut env buff.length s a fuel) st' := by
  induction fuel with
  | zero => intro a st; exact ⟨st, rfl⟩
  | succ fuel ih =>
    intro a st
    simp only [sendrecvLoop, loopOut, attemptOut]
    by_cases hshort : env.sendRet s a < 0 ∨ env.sendRet s a ≠ (buff.length : Int)
    · rw [if_pos hshort, if_pos hshort]
      exact ⟨_, rfl⟩
    rw [if_neg hshort, if_neg hshort]
    obtain ⟨st2, hr⟩ := recv_mirror env s a
      (logCall env st (.sendC s a (env.sendRet s a))
        (some (mkares_maybe_base64 env buff (Int.ofNat buff.length)))) fd hwf hfd
    rw [hr]
    dsimp only
    by_cases hr0 : recvOut env s a = 0
    · rw [if_pos hr0, if_pos hr0]
      exact ⟨st2, rfl⟩
    · rw [if_neg hr0, if_neg hr0]
      exact ih (a + 1) st2

theorem sendrecv_mirror {env : Env} {buff : List Nat} {s : Nat} {fd : Int}
    (st : RunState) (hwf : wfEnv env) (hbz : buff.length ≠ 0)
    (hfd : fd ≠ -1) :
    ∃ st', mkares_query_sendrecv_ env buff s fd st =
      .ok (sdOut env st.q.attempts buff.length s) st' := by
  unfold mkares_query_sendrecv_ sdOut
  rw [if_neg (by simp [hbz, hfd])]
  dsimp only
  by_cases hc : env.connectRet s ≠ 0
  · rw [if_pos hc, if_pos hc]
    exact ⟨_, rfl⟩
  · rw [if_neg hc, if_neg hc]
    obtain ⟨st', h⟩ := loop_mirror hwf hfd st.q.attempts 0
      (logCall env st (.connectC s (env.connectRet s)) none)
    exact ⟨st', h⟩

theorem tryServer_mirror {env : Env} {buff : List Nat} {s : Nat}
    (st : RunState) (hwf : wfEnv env) (hbz : buff.length ≠ 0) :
    ∃ st', mkares_query_try_server_ env buff s st =
      .ok (serverOut env st.q.attempts buff.length s) st' := by
  unfold mkares_query_try_server_ serverOut
  rw [if_neg hbz]
  dsimp only
  by_cases hfd : env.socketRet s = -1
  · rw [if_pos hfd, if_pos hfd]
    exact ⟨_, rfl⟩
  · rw [if_neg hfd, if_neg hfd]
    obtain ⟨st', h⟩ := sendrecv_mirror
      (logCall env st (.sockOpen s (env.socketRet s)) none) hwf hbz hfd
    rw [h]
    exact ⟨noteClose st' s, rfl⟩

/-! ### Server-iteration lemmas: order of trials, skipping, first success,
and overall failure. -/

theorem MOut_qFieldsEq {env : Env} {ev : SysCall → Prop} {st st' : RunState}
    (h : MOut env ev st st') : qFieldsEq st.q st'.q := h.2.2.2.2

theorem getSeq_append (l dc : List SysCall) :
    getSeq (l ++ dc) = getSeq l ++ getSeq dc := by
  simp [getSeq, List.filterMap_append]

theorem getSeq_srvEv (s : Nat) (dc : List SysCall)
    (h : ∀ c ∈ dc, srvEv s c) : getSeq dc = [] := by
  induction dc with
  | nil => rfl
  | cons c rest ih =>
    have hc := h c (by simp)
    have hr := ih (fun c' hc' => h c' (by simp [hc']))
    cases c <;> simp_all [srvEv, sdEv, attEv, innerEv, getSeq]

theorem getSeq_logCall_get (env : Env) (st : RunState) (k : Nat) (r : Int)
    (d : Option String) :
    getSeq (logCall env st (.getaddrinfo k r) d).calls =
      getSeq st.calls ++ [k] := by
  simp [logCall, getSeq, List.filterMap_append]

theorem tryEachLoop_allfail {env : Env} {buff : List Nat}
    (hwf : wfEnv env) (hbz : buff.length ≠ 0) (srv : List Server) :
    ∀ k st,
      (∀ j, j < srv.length →
        serverFails env st.q.attempts buff.length (k + j)) →
      ∃ st', tryEachLoop env buff st k srv = .ok (-1) st' ∧
        getSeq st'.calls = getSeq st.calls ++ List.range' k srv.length := by
  induction srv with
  | nil =>
    intro k st hfail
    exact ⟨st, rfl, by simp⟩
  | cons s0 rest ih =>
    intro k st hfail
    have hf0 : serverFails env st.q.attempts buff.length k := by
      simpa using hfail 0 (by simp)
    simp only [tryEachLoop]
    have hq1 : (logCall env st (.getaddrinfo k (env.getaddrinfoRet k))
        none).q = st.q := rfl
    by_cases hg : env.getaddrinfoRet k ≠ 0
    · rw [if_pos hg]
      obtain ⟨st', heq, hseq⟩ := ih (k + 1)
        (logCall env st (.getaddrinfo k (env.getaddrinfoRet k)) none)
        (fun j hj => by
          rw [hq1]
          have := hfail (j + 1) (by simpa using Nat.succ_lt_succ hj)
          simpa [show k + (j + 1) = k + 1 + j by omega] using this)
      refine ⟨st', heq, ?_⟩
      rw [hseq, getSeq_logCall_get, List.append_assoc]
      simp [List.range'_succ]
    · rw [if_neg hg]
      have hg0 : env.getaddrinfoRet k = 0 := by simpa using hg
      have hso : serverOut env st.q.attempts buff.length k = -1 := by
        rcases hf0 with hf0 | hf0
        · exact absurd hg0 hf0
        · exact hf0
      obtain ⟨st2, hts⟩ := tryServer_mirror
        (logCall env st (.getaddrinfo k (env.getaddrinfoRet k)) none) hwf hbz
      rw [hq1, hso] at hts
      rw [hts]
      dsimp only
      rw [if_neg (by decide : ¬(-1 : Int) = 0)]
      have hatt2 : st2.q.attempts = st.q.attempts := by
        have := (MOut_qFieldsEq (tryServer_master hts).1).1
        rw [this, hq1]
      obtain ⟨st', heq, hseq⟩ := ih (k + 1) st2
        (fun j hj => by
          rw [hatt2]
          have := hfail (j + 1) (by simpa using Nat.succ_lt_succ hj)
          simpa [show k + (j + 1) = k + 1 + j by omega] using this)
      refine ⟨st', heq, ?_⟩
      have hseq2 : getSeq st2.calls = getSeq st.calls ++ [k] := by
        obtain ⟨dc, hdc, hdcev⟩ := (tryServer_master hts).1.1
        rw [hdc, getSeq_append, getSeq_srvEv k dc hdcev, getSeq_logCall_get]
        simp
      rw [hseq, hseq2, List.append_assoc]
      simp [List.range'_succ]

theorem tryEachLoop_success {env : Env} {buff : List Nat}
    (hwf : wfEnv env) (hbz : buff.length ≠ 0) (srv : List Server) :
    ∀ k m st,
      (∀ j, j < m → serverFails env st.q.attempts buff.length (k + j)) →
      m < srv.length →
      env.getaddrinfoRet (k + m) = 0 →
      serverOut env st.q.attempts buff.length (k + m) = 0 →
      ∃ st', tryEachLoop env buff st k srv = .ok 0 st' ∧
        getSeq st'.calls = getSeq st.calls ++ List.range' k (m + 1) ∧
        MOut env (anyEv k (k + m + 1)) st st' := by
  induction srv with
  | nil =>
    intro k m st hfail hm
    exact absurd hm (by simp)
  | cons s0 rest ih =>
    intro k m st hfail hm hres hout
    simp only [tryEachLoop]
    have hq1 : (logCall env st (.getaddrinfo k (env.getaddrinfoRet k))
        none).q = st.q := rfl
    have m1 := logCall_MOut env st (.getaddrinfo k (env.getaddrinfoRet k)) none
      (anyEv k (k + m + 1))
      ⟨k, le_refl k, by omega, Or.inr ⟨env.getaddrinfoRet k, rfl⟩⟩ rfl
    cases m with
    | zero =>
      rw [if_neg (by simpa using hres)]
      obtain ⟨st2, hts⟩ := tryServer_mirror
        (logCall env st (.getaddrinfo k (env.getaddrinfoRet k)) none) hwf hbz
      rw [hq1, (by simpa using hout :
        serverOut env st.q.attempts buff.length k = 0)] at hts
      rw [hts]
      dsimp only
      rw [if_pos rfl]
      have m2 := MOut_mono (tryServer_master hts).1 (fun c hc =>
        (⟨k, le_refl k, by omega, Or.inl hc⟩ : anyEv k (k + 0 + 1) c))
      refine ⟨st2, rfl, ?_, MOut_trans m1 m2⟩
      obtain ⟨dc, hdc, hdcev⟩ := (tryServer_master hts).1.1
      rw [hdc, getSeq_append, getSeq_srvEv k dc hdcev, getSeq_logCall_get]
      simp
    | succ m' =>
      have hf0 : serverFails env st.q.attempts buff.length k := by
        simpa using hfail 0 (by omega)
      have hshift : k + (m' + 1) = k + 1 + m' := by omega
      by_cases hg : env.getaddrinfoRet k ≠ 0
      · rw [if_pos hg]
        obtain ⟨st', heq, hseq, hmo⟩ := ih (k + 1) m'
          (logCall env st (.getaddrinfo k (env.getaddrinfoRet k)) none)
          (fun j hj => by
            rw [hq1]
            have := hfail (j + 1) (by omega)
            simpa [show k + (j + 1) = k + 1 + j by omega] using this)
          (by simpa using hm)
          (by rw [← hshift]; exact hres)
          (by rw [hq1, ← hshift]; exact hout)
        refine ⟨st', heq, ?_, ?_⟩
        · rw [hseq, getSeq_logCall_get, List.append_assoc]
          simp [List.range'_succ]
        · refine MOut_trans m1 (MOut_mono hmo ?_)
          intro c hc
          exact anyEv_mono (Nat.le_succ k) (by omega) c hc
      · rw [if_neg hg]
        have hg0 : env.getaddrinfoRet k = 0 := by simpa using hg
        have hso : serverOut env st.q.attempts buff.length k = -1 := by
          rcases hf0 with hf0 | hf0
          · exact absurd hg0 hf0
          · exact hf0
        obtain ⟨st2, hts⟩ := tryServer_mirror
          (logCall env st (.getaddrinfo k (env.getaddrinfoRet k)) none)
          hwf hbz
        rw [hq1, hso] at hts
        rw [hts]
        dsimp only
        rw [if_neg (by decide : ¬(-1 : Int) = 0)]
        have hatt2 : st2.q.attempts = st.q.attempts := by
          have := (MOut_qFieldsEq (tryServer_master hts).1).1
          rw [this, hq1]
        obtain ⟨st', heq, hseq, hmo⟩ := ih (k + 1) m' st2
          (fun j hj => by
            rw [hatt2]
            have := hfail (j + 1) (by omega)
            simpa [show k + (j + 1) = k + 1 + j by omega] using this)
          (by simpa using hm)
          (by rw [← hshift]; exact hres)
          (by rw [hatt2, ← hshift]; exact hout)
        have m2 := MOut_mono (tryServer_master hts).1 (fun c hc =>
          (⟨k, le_refl k, by omega, Or.inl hc⟩ :
            anyEv k (k + (m' + 1) + 1) c))
        refine ⟨st', heq, ?_, ?_⟩
        · have hseq2 : getSeq st2.calls = getSeq st.calls ++ [k] := by
            obtain ⟨dc, hdc, hdcev⟩ := (tryServer_master hts).1.1
            rw [hdc, getSeq_append, getSeq_srvEv k dc hdcev,
              getSeq_logCall_get]
            simp
          rw [hseq, hseq2, List.append_assoc]
          simp [List.range'_succ]
        · refine MOut_trans (MOut_trans m1 m2) (MOut_mono hmo ?_)
          intro c hc
          exact anyEv_mono (Nat.le_succ k) (by omega) c hc

/-! ### Send-count bounds. -/

theorem sendCount_append (s : Nat) (l dc : List SysCall) :
    sendCount s (l ++ dc) = sendCount s l + sendCount s dc := by
  simp [sendCount, List.countP_append]

theorem sendCount_innerEv {s : Nat} (σ : Nat) (dc : List SysCall)
    (h : ∀ c ∈ dc, innerEv s c) : sendCount σ dc = 0 := by
  induction dc with
  | nil => rfl
  | cons c rest ih =>
    have hc := h c (by simp)
    have hr := ih (fun c' hc' => h c' (by simp [hc']))
    cases c <;> simp_all [innerEv, sendCount, isSendTo, List.countP_cons]

theorem sendCount_attEv {s : Nat} (σ : Nat) (hne : σ ≠ s)
    (dc : List SysCall) (h : ∀ c ∈ dc, attEv s c) : sendCount σ dc = 0 := by
  induction dc with
  | nil => rfl
  | cons c rest ih =>
    have hc := h c (by simp)
    have hr := ih (fun c' hc' => h c' (by simp [hc']))
    cases c <;>
      simp_all [attEv, innerEv, sendCount, isSendTo, List.countP_cons] <;>
      omega

theorem sendCount_srvEv {s : Nat} (σ : Nat) (hne : σ ≠ s)
    (dc : List SysCall) (h : ∀ c ∈ dc, srvEv s c) : sendCount σ dc = 0 := by
  induction dc with
  | nil => rfl
  | cons c rest ih =>
    have hc := h c (by simp)
    have hr := ih (fun c' hc' => h c' (by simp [hc']))
    cases c <;>
      simp_all [srvEv, sdEv, attEv, innerEv, sendCount, isSendTo,
        List.countP_cons] <;>
      omega

theorem sendCount_logCall_send (env : Env) (st : RunState) (s a : Nat)
    (n : Int) (d : Option String) :
    sendCount s (logCall env st (.sendC s a n) d).calls =
      sendCount s st.calls + 1 := by
  simp [logCall, sendCount, List.countP_append, List.countP_cons, isSendTo]

theorem sendCount_logCall_other (env : Env) (st : RunState) (σ : Nat)
    (c : SysCall) (d : Option String) (h : isSendTo σ c = false) :
    sendCount σ (logCall env st c d).calls = sendCount σ st.calls := by
  simp [logCall, sendCount, List.countP_append, List.countP_cons, h]

theorem loop_sendBound {env : Env} {buff : List Nat} {s : Nat} {fd : Int}
    (fuel : Nat) :
    ∀ a st r st', sendrecvLoop env buff s fd st a fuel = .ok r st' →
      sendCount s st'.calls ≤ sendCount s st.calls + fuel := by
  induction fuel with
  | zero =>
    intro a st r st' h
    simp only [sendrecvLoop, Step.ok.injEq] at h
    obtain ⟨-, rfl⟩ := h
    simp
  | succ fuel ih =>
    intro a st r st' h
    simp only [sendrecvLoop] at h
    have h1 : sendCount s (logCall env st (.sendC s a (env.sendRet s a))
        (some (mkares_maybe_base64 env buff (Int.ofNat buff.length)))).calls =
        sendCount s st.calls + 1 := sendCount_logCall_send env st s a _ _
    by_cases hshort : env.sendRet s a < 0 ∨ env.sendRet s a ≠ (buff.length : Int)
    · rw [if_pos hshort] at h
      simp only [Step.ok.injEq] at h
      obtain ⟨-, rfl⟩ := h
      omega
    rw [if_neg hshort] at h
    cases hr : mkares_query_recv_ env s a
        (logCall env st (.sendC s a (env.sendRet s a))
          (some (mkares_maybe_base64 env buff (Int.ofNat buff.length)))) fd with
    | fatal => rw [hr] at h; exact absurd h (by simp)
    | ok r2 st2 =>
      rw [hr] at h
      dsimp only at h
      have h2 : sendCount s st2.calls = sendCount s st.calls + 1 := by
        obtain ⟨dc, hdc, hdcev⟩ := (recv_master hr).1
        rw [hdc, sendCount_append, sendCount_innerEv s dc hdcev, h1]
      by_cases hr2 : r2 = 0
      · rw [if_pos hr2] at h
        simp only [Step.ok.injEq] at h
        obtain ⟨-, rfl⟩ := h
        omega
      · rw [if_neg hr2] at h
        have := ih _ _ _ _ h
        omega

theorem tryServer_sendBound {env : Env} {buff : List Nat} {s : Nat}
    {st : RunState} {r : Int} {st' : RunState}
    (h : mkares_query_try_server_ env buff s st = .ok r st') (σ : Nat) :
    sendCount σ st'.calls ≤
      sendCount σ st.calls + (if σ = s then st.q.attempts else 0) := by
  by_cases hσ : σ = s
  · subst hσ
    rw [if_pos rfl]
    unfold mkares_query_try_server_ at h
    by_cases hz : buff.length = 0
    · rw [if_pos hz] at h; exact absurd h (by simp)
    rw [if_neg hz] at h
    dsimp only at h
    have h1 : sendCount σ (logCall env st (.sockOpen σ (env.socketRet σ))
        none).calls = sendCount σ st.calls :=
      sendCount_logCall_other env st σ _ none rfl
    by_cases hfd : env.socketRet σ = -1
    · rw [if_pos hfd] at h
      simp only [Step.ok.injEq] at h
      obtain ⟨-, rfl⟩ := h
      omega
    rw [if_neg hfd] at h
    cases hsd : mkares_query_sendrecv_ env buff σ (env.socketRet σ)
        (logCall env st (.sockOpen σ (env.socketRet σ)) none) with
    | fatal => rw [hsd] at h; exact absurd h (by simp)
    | ok r2 st2 =>
      rw [hsd] at h
      simp only [Step.ok.injEq] at h
      obtain ⟨-, rfl⟩ := h
      have h2 : sendCount σ st2.calls ≤ sendCount σ st.calls + st.q.attempts := by
        unfold mkares_query_sendrecv_ at hsd
        rw [if_neg (by simp [hz, hfd])] at hsd
        dsimp only at hsd
        by_cases hc : env.connectRet σ ≠ 0
        · rw [if_pos hc] at hsd
          simp only [Step.ok.injEq] at hsd
          obtain ⟨-, rfl⟩ := hsd
          rw [sendCount_logCall_other env _ σ
            (.connectC σ (env.connectRet σ)) none rfl, h1]
          omega
        · rw [if_neg hc] at hsd
          have := loop_sendBound _ _ _ _ _ hsd
          rw [sendCount_logCall_other env _ σ
            (.connectC σ (env.connectRet σ)) none rfl, h1] at this
          exact this
      have h3 : sendCount σ (noteClose st2 σ).calls = sendCount σ st2.calls := by
        simp [noteClose, sendCount, List.countP_append, List.countP_cons,
          isSendTo]
      omega
  · rw [if_neg hσ]
    obtain ⟨dc, hdc, hdcev⟩ := (tryServer_master h).1.1
    rw [hdc, sendCount_append, sendCount_srvEv σ hσ dc hdcev]

theorem tryEachLoop_sendBound {env : Env} {buff : List Nat}
    (srv : List Server) :
    ∀ k st r st', tryEachLoop env buff st k srv = .ok r st' →
      ∀ σ, sendCount σ st'.calls ≤
        sendCount σ st.calls + (if k ≤ σ then st.q.attempts else 0) := by
  induction srv with
  | nil =>
    intro k st r st' h σ
    simp only [tryEachLoop, Step.ok.injEq] at h
    obtain ⟨-, rfl⟩ := h
    split <;> omega
  | cons s0 rest ih =>
    intro k st r st' h σ
    simp only [tryEachLoop] at h
    have h1 : sendCount σ (logCall env st
        (.getaddrinfo k (env.getaddrinfoRet k)) none).calls =
        sendCount σ st.calls :=
      sendCount_logCall_other env st σ _ none rfl
    by_cases hg : env.getaddrinfoRet k ≠ 0
    · rw [if_pos hg] at h
      have := ih _ _ _ _ h σ
      rw [h1] at this
      have hq1 : (logCall env st (.getaddrinfo k (env.getaddrinfoRet k))
          none).q = st.q := rfl
      rw [hq1] at this
      by_cases hkσ : k ≤ σ
      · rw [if_pos hkσ]
        by_cases hk1σ : k + 1 ≤ σ
        · rw [if_pos hk1σ] at this; omega
        · rw [if_neg hk1σ] at this; omega
      · rw [if_neg hkσ]
        rw [if_neg (by omega)] at this
        omega
    rw [if_neg hg] at h
    cases hts : mkares_query_try_server_ env buff k
        (logCall env st (.getaddrinfo k (env.getaddrinfoRet k)) none) with
    | fatal => rw [hts] at h; exact absurd h (by simp)
    | ok r2 st2 =>
      rw [hts] at h
      dsimp only at h
      have h2 := tryServer_sendBound hts σ
      rw [h1] at h2
      have hq1 : (logCall env st (.getaddrinfo k (env.getaddrinfoRet k))
          none).q = st.q := rfl
      rw [hq1] at h2
      have hatt2 : st2.q.attempts = st.q.attempts := by
        have := (MOut_qFieldsEq (tryServer_master hts).1).1
        rw [this, hq1]
      by_cases hr2 : r2 = 0
      · rw [if_pos hr2] at h
        simp only [Step.ok.injEq] at h
        obtain ⟨-, rfl⟩ := h
        by_cases hkσ : k ≤ σ
        · rw [if_pos hkσ]
          split at h2 <;> omega
        · rw [if_neg hkσ]
          rw [if_neg (by omega)] at h2
          omega
      · rw [if_neg hr2] at h
        have h3 := ih _ _ _ _ h σ
        rw [hatt2] at h3
        by_cases hkσ : k ≤ σ
        · rw [if_pos hkσ]
          by_cases hσk : σ = k
          · rw [if_pos hσk] at h2
            rw [if_neg (by omega)] at h3
            omega
          · rw [if_neg hσk] at h2
            by_cases hk1σ : k + 1 ≤ σ
            · rw [if_pos hk1σ] at h3; omega
            · rw [if_neg hk1σ] at h3; omega
        · rw [if_neg hkσ]
          rw [if_neg (by omega)] at h2
          rw [if_neg (by omega)] at h3
          omega

theorem perform_sendBound {env : Env} {q : Query} {r : Int} {st' : RunState}
    (h : performRun env q = .ok r st') (σ : Nat) :
    sendCount σ st'.calls ≤ q.attempts := by
  unfold performRun at h
  dsimp only at h
  have h1 : sendCount σ (logCall env (initState q)
      (.createQuery env.createQueryRet) none).calls = 0 := by
    simp [logCall, initState, sendCount, List.countP_cons, isSendTo]
  by_cases hret : env.createQueryRet ≠ 0
  · rw [if_pos hret] at h
    simp only [Step.ok.injEq] at h
    obtain ⟨-, rfl⟩ := h
    omega
  rw [if_neg hret] at h
  unfold mkares_query_try_each_server_ at h
  by_cases hz : env.createQueryBuff.length = 0
  · rw [if_pos hz] at h; exact absurd h (by simp)
  rw [if_neg hz] at h
  have := tryEachLoop_sendBound _ _ _ _ _ h σ
  rw [h1] at this
  simpa using this

/-! ### No-acceptance runs leave the result object unchanged. -/

theorem QExt_noAcc {env : Env} {q q' : Query}
    (hna : ∀ s a h, env.parseRet s a ≠ .success h) (h : QExt env q q') :
    q'.addresses = q.addresses ∧ q'.cname = q.cname := by
  obtain ⟨⟨t, ht, hprov⟩, hcn, -⟩ := h
  constructor
  · cases t with
    | nil => simpa using ht
    | cons x rest =>
      obtain ⟨s, a, hh, rec, hp, -, -⟩ := hprov x (by simp)
      exact absurd hp (hna s a hh)
  · rcases hcn with hcn | hcn
    · exact hcn
    · obtain ⟨s, a, hh, hp, -⟩ := hcn
      exact absurd hp (hna s a hh)

/-! ### Locating the first returning attempt of the retry loop. -/

theorem loopOut_firstSome {env : Env} {bl s : Nat} :
    ∀ (d : Nat) (fuel a : Nat) (r : Int),
      (∀ b, b < d → attemptOut env bl s (a + b) = none) →
      attemptOut env bl s (a + d) = some r →
      d < fuel →
      loopOut env bl s a fuel = r := by
  intro d
  induction d with
  | zero =>
    intro fuel a r hnone hsome hfuel
    cases fuel with
    | zero => omega
    | succ fuel =>
      simp only [loopOut]
      rw [show a + 0 = a from rfl] at hsome
      rw [hsome]
  | succ d ih =>
    intro fuel a r hnone hsome hfuel
    cases fuel with
    | zero => omega
    | succ fuel =>
      simp only [loopOut]
      rw [show a = a + 0 from rfl, hnone 0 (by omega)]
      exact ih fuel (a + 1) r
        (fun b hb => by
          have := hnone (b + 1) (by omega)
          simpa [show a + (b + 1) = a + 1 + b by omega] using this)
        (by simpa [show a + (d + 1) = a + 1 + d by omega] using hsome)
        (by omega)

/-- Monotone clocks yield nondecreasing timestamp sequences. -/
theorem chainClock (f : Nat → Nat) (hf : Monotone f) (n : Nat) :
    List.Chain' (· ≤ ·) ((List.range n).map f) :=
  (List.Pairwise.map f (fun a b hab => hf hab.le)
    (List.pairwise_lt_range n)).chain'

/-! ### NODATA receive and loop steps. -/

theorem recv_enodata {env : Env} {s a : Nat} (st : RunState) {fd : Int}
    (hfd : fd ≠ -1) (hpoll : 0 < env.pollRet s a)
    (hrecv : 0 < env.recvRet s a) (hbig : env.recvRet s a ≤ intMax)
    (hp : env.parseRet s a = .enodata) :
    ∃ st', mkares_query_recv_ env s a st fd = .ok 0 st' ∧ st'.q = st.q := by
  unfold mkares_query_recv_
  rw [if_neg hfd]
  dsimp only
  rw [if_neg (not_le.mpr hpoll), if_neg (not_le.mpr hrecv),
    if_neg (not_lt.mpr hbig), hp]
  exact ⟨_, rfl, rfl⟩

theorem loop_enodata {env : Env} {buff : List Nat} {s : Nat} {fd : Int}
    (a fuel : Nat) (st : RunState) (hfd : fd ≠ -1)
    (hsend : ¬(env.sendRet s a < 0 ∨ env.sendRet s a ≠ (buff.length : Int)))
    (hpoll : 0 < env.pollRet s a) (hrecv : 0 < env.recvRet s a)
    (hbig : env.recvRet s a ≤ intMax) (hp : env.parseRet s a = .enodata) :
    ∃ st', sendrecvLoop env buff s fd st a (fuel + 1) = .ok 0 st' ∧
      st'.q = st.q ∧
      sendCount s st'.calls = sendCount s st.calls + 1 := by
  simp only [sendrecvLoop]
  rw [if_neg hsend]
  obtain ⟨st2, hr, hq⟩ := recv_enodata
    (logCall env st (.sendC s a (env.sendRet s a))
      (some (mkares_maybe_base64 env buff (Int.ofNat buff.length)))) hfd
    hpoll hrecv hbig hp
  rw [hr]
  dsimp only
  rw [if_pos rfl]
  refine ⟨st2, rfl, hq, ?_⟩
  obtain ⟨dc, hdc, hdcev⟩ := (recv_master hr).1
  rw [hdc, sendCount_append, sendCount_innerEv s dc hdcev,
    sendCount_logCall_send]

/-! ### Socket-automaton bounds. -/

theorem foldl_sockStep_none (l : List SysCall) :
    List.foldl sockStep none l = none := by
  induction l with
  | nil => rfl
  | cons c rest ih => rw [List.foldl_cons]; exact ih

theorem sockStep_le_one {v w : Nat} {c : SysCall} (hv : v ≤ 1)
    (h : sockStep (some v) c = some w) : w ≤ 1 := by
  cases c
  all_goals simp only [sockStep] at h
  all_goals try (simp at h; omega)
  case sockOpen s fd =>
    split at h
    · simp at h; omega
    · split at h
      · simp at h; omega
      · simp at h

theorem foldl_sockStep_le_one (l : List SysCall) :
    ∀ v, v ≤ 1 → ∀ c', List.foldl sockStep (some v) l = some c' → c' ≤ 1 := by
  induction l with
  | nil =>
    intro v hv c' h
    simp at h
    omega
  | cons c rest ih =>
    intro v hv c' h
    rw [List.foldl_cons] at h
    cases hs : sockStep (some v) c with
    | none => rw [hs, foldl_sockStep_none] at h; exact absurd h (by simp)
    | some w => rw [hs] at h; exact ih w (sockStep_le_one hv hs) c' h

/-! ### Full formatting characterization. -/

theorem formatAddrs_ok_iff (env : Env) (fam : Fam) (addrs : List RawAddr) :
    (formatAddrs env fam addrs).2 = 0 ↔
      ∀ rec ∈ addrs, env.ntop fam rec ≠ none := by
  induction addrs with
  | nil => simp [formatAddrs]
  | cons addr rest ih =>
    cases hnt : env.ntop fam addr with
    | none => simp [formatAddrs, hnt]
    | some nm => simp [formatAddrs, hnt, ih]

theorem srvEv_evServer (j : Nat) (c : SysCall) (h : srvEv j c) :
    evServer c = some j := by
  cases c <;> simp_all [srvEv, sdEv, attEv, innerEv, evServer]

/-! ### Perform-level assembly. -/

theorem perform_allfail {env : Env} {q : Query} (hwf : wfEnv env)
    (hret : env.createQueryRet = 0)
    (hbz : env.createQueryBuff.length ≠ 0)
    (hfail : ∀ j, j < q.servers.length →
      serverFails env q.attempts env.createQueryBuff.length j) :
    ∃ st', performRun env q = .ok (-1) st' ∧
      getSeq st'.calls = List.range q.servers.length := by
  unfold performRun
  dsimp only
  rw [if_neg (by simp [hret])]
  unfold mkares_query_try_each_server_
  rw [if_neg hbz]
  obtain ⟨st', heq, hseq⟩ := tryEachLoop_allfail hwf hbz
    (logCall env (initState q) (.createQuery env.createQueryRet) none).q.servers
    0 (logCall env (initState q) (.createQuery env.createQueryRet) none)
    (fun j hj => by simpa using hfail j (by simpa using hj))
  refine ⟨st', heq, ?_⟩
  rw [hseq]
  have h0 : getSeq (logCall env (initState q)
      (.createQuery env.createQueryRet) none).calls = [] := rfl
  rw [h0, List.nil_append, ← List.range_eq_range']
  rfl

theorem perform_success {env : Env} {q : Query} {i : Nat} (hwf : wfEnv env)
    (hret : env.createQueryRet = 0)
    (hbz : env.createQueryBuff.length ≠ 0)
    (hi : i < q.servers.length)
    (hfail : ∀ j, j < i →
      serverFails env q.attempts env.createQueryBuff.length j)
    (hres : env.getaddrinfoRet i = 0)
    (hout : serverOut env q.attempts env.createQueryBuff.length i = 0) :
    ∃ st', performRun env q = .ok 0 st' ∧
      getSeq st'.calls = List.range (i + 1) ∧
      ∀ c ∈ st'.calls, (∃ rr, c = .createQuery rr) ∨
        ∃ j, j ≤ i ∧ evServer c = some j := by
  unfold performRun
  dsimp only
  rw [if_neg (by simp [hret])]
  unfold mkares_query_try_each_server_
  rw [if_neg hbz]
  obtain ⟨st', heq, hseq, hmo⟩ := tryEachLoop_success hwf hbz
    (logCall env (initState q) (.createQuery env.createQueryRet) none).q.servers
    0 i (logCall env (initState q) (.createQuery env.createQueryRet) none)
    (fun j hj => by simpa using hfail j hj)
    (by simpa using hi)
    (by simpa using hres)
    (by simpa using hout)
  refine ⟨st', heq, ?_, ?_⟩
  · rw [hseq]
    have h0 : getSeq (logCall env (initState q)
        (.createQuery env.createQueryRet) none).calls = [] := rfl
    rw [h0, List.nil_append, ← List.range_eq_range']
  · obtain ⟨dc, hdc, hdcev⟩ := hmo.1
    intro c hc
    rw [hdc] at hc
    rcases List.mem_append.mp hc with hc | hc
    · left
      have : c ∈ [SysCall.createQuery env.createQueryRet] := hc
      simp at this
      exact ⟨env.createQueryRet, this⟩
    · right
      obtain ⟨j, hj1, hj2, hj3⟩ := hdcev c hc
      refine ⟨j, by omega, ?_⟩
      rcases hj3 with hj3 | ⟨rr, rfl⟩
      · exact srvEv_evServer j c hj3
      · rfl

/-! ### Concrete environments and queries used by witnesses and
counterexamples. -/

/-- A well-formed parsed response: two IPv4 records and a canonical name. -/
def hostD : Hostent :=
  ⟨some "cname.example", .inet, 4, [[93, 184, 216, 34], [93, 184, 216, 35]]⟩

/-- A parsed response whose second record does not format (`inet_ntop`
returns null on it under `envC1`). -/
def hostX : Hostent := ⟨some "x", .inet, 4, [[1, 2, 3, 4], [5, 6, 7, 8]]⟩

/-- A benign environment: every call succeeds, every response parses to
`hostD`, and both records format. -/
def envD : Env where
  clock := fun t => t
  base64 := fun _ => "AQID"
  createQueryRet := 0
  createQueryBuff := [1, 2, 3]
  getaddrinfoRet := fun _ => 0
  socketRet := fun _ => 4
  connectRet := fun _ => 0
  sendRet := fun _ _ => 3
  pollRet := fun _ _ => 1
  recvRet := fun _ _ => 20
  recvData := fun _ _ => [9]
  parseRet := fun _ _ => .success hostD
  ntop := fun _ addr =>
    if addr = [93, 184, 216, 34] then some "93.184.216.34"
    else some "93.184.216.35"

/-- Environment where attempt 0 parses to `hostX` whose second record
fails to format, and attempt 1 yields NODATA. -/
def envC1 : Env :=
  { envD with
    parseRet := fun _ a => if a = 0 then .success hostX else .enodata
    ntop := fun _ addr => if addr = [1, 2, 3, 4] then some "1.2.3.4" else none }

/-- Environment with a short send: 1 byte of a 3-byte query. -/
def envC2 : Env := { envD with sendRet := fun _ _ => 1 }

/-- Environment where attempt 0 fails with a parse error and attempt 1
yields NODATA; no response ever parses successfully. -/
def envC3 : Env :=
  { envD with parseRet := fun _ a => if a = 0 then .err 2 else .enodata }

/-- Environment where every server fails (connect refused). -/
def envC4 : Env := { envD with connectRet := fun _ => -1 }

/-- Environment where query encoding fails. -/
def envC7 : Env := { envD with createQueryRet := 11 }

/-- A query with one configured server. -/
def qD : Query := { servers := [⟨"8.8.8.8", "53"⟩] }

/-- A fresh query with no servers. -/
def qE : Query := {}

theorem wfEnv_envD : wfEnv envD := by
  constructor
  · intro s a h hp
    cases hp
    exact Or.inl ⟨rfl, rfl⟩
  · intro s a
    exact (by decide : (20 : Int) ≤ intMax)

theorem wfEnv_envC4 : wfEnv envC4 := by
  constructor
  · intro s a h hp
    cases hp
    exact Or.inl ⟨rfl, rfl⟩
  · intro s a
    exact (by decide : (20 : Int) ≤ intMax)

theorem noAcc_envC3 : ∀ s a h, envC3.parseRet s a ≠ .success h := by
  intro s a h hp
  simp only [envC3] at hp
  split at hp <;> simp at hp

theorem wfEnv_envC3 : wfEnv envC3 := by
  constructor
  · intro s a h hp
    exact absurd hp (noAcc_envC3 s a h)
  · intro s a
    exact (by decide : (20 : Int) ≤ intMax)

/-! ### Total projections of a `Step` result (for closed statements). -/

/-- Return value of a run, `none` when the process aborted. -/
def stepRet : Step Int → Option Int
  | .ok r _ => some r
  | .fatal => none

/-- Final state of a run (a dummy state when the process aborted). -/
def stepSt : Step Int → RunState
  | .ok _ st => st
  | .fatal => initState {}

/-- Final query object of a run. -/
def stepQ : Step Int → Option Query
  | .ok _ st => some st.q
  | .fatal => none

/-! ## Claim theorems. -/

/-- C1, counterexample: acceptance of a decoded response is NOT atomic.
Completing with `hostX` — whose second record fails to format — returns
`-1` (the attempt is treated as a failure), yet the query object is left
with the canonical name set to `"x"` and the first record `"1.2.3.4"`
appended to `addresses`: a failed acceptance does contribute entries, so
the Result is not left as if no acceptance had occurred. -/
theorem c1_counterexample :
    stepRet (mkares_query_complete_ envC1 0 0 (initState {}) hostX) =
      some (-1) ∧
    stepQ (mkares_query_complete_ envC1 0 0 (initState {}) hostX) =
      some { addresses := ["1.2.3.4"], cname := "x" } := by
  constructor <;> rfl

/-- C1, amended: `mkares_query_complete_` sets `cname` whenever the
response carries a host name, appends exactly the presentation strings of
the records strictly before the first formatting failure (all of them when
none fails), and returns 0 iff every record formats; a formatting failure
makes the attempt fail but the prefix already appended, and the updated
`cname`, remain in the Result. -/
theorem c1_amended (env : Env) (s a : Nat) (st : RunState) (host : Hostent)
    (hwf : hostentWF host) :
    ∃ st', mkares_query_complete_ env s a st host =
        .ok (formatAddrs env host.h_addrtype host.h_addr_list).2 st' ∧
      st'.q.addresses =
        st.q.addresses ++ (formatAddrs env host.h_addrtype host.h_addr_list).1 ∧
      st'.q.cname =
        (match host.h_name with | some n => n | none => st.q.cname) ∧
      ((formatAddrs env host.h_addrtype host.h_addr_list).2 = 0 ↔
        ∀ rec ∈ host.h_addr_list, env.ntop host.h_addrtype rec ≠ none) := by
  obtain ⟨st', h1, h2, h3⟩ := complete_mirror env s a st host hwf
  exact ⟨st', h1, h2, h3,
    formatAddrs_ok_iff env host.h_addrtype host.h_addr_list⟩

/-- C1, witness: the amended theorem evaluated on a concrete well-formed
two-record response. -/
theorem c1_witness :
    hostentWF hostD ∧
    (∃ st', mkares_query_complete_ envD 0 0 (initState {}) hostD =
        .ok (formatAddrs envD hostD.h_addrtype hostD.h_addr_list).2 st' ∧
      st'.q.addresses = (initState {}).q.addresses ++
        (formatAddrs envD hostD.h_addrtype hostD.h_addr_list).1 ∧
      st'.q.cname =
        (match hostD.h_name with
         | some n => n
         | none => (initState {}).q.cname) ∧
      ((formatAddrs envD hostD.h_addrtype hostD.h_addr_list).2 = 0 ↔
        ∀ rec ∈ hostD.h_addr_list, envD.ntop hostD.h_addrtype rec ≠ none)) :=
  ⟨Or.inl ⟨rfl, rfl⟩,
    c1_amended envD 0 0 (initState {}) hostD (Or.inl ⟨rfl, rfl⟩)⟩

/-- C2: during one query the number of sends issued to any one server
never exceeds the configured `attempts`; and when the connect succeeded
but the first send is short (negative, or byte count different from the
query buffer length), the transport session issues exactly one send to
that server and abandons it with failure (-1), with no further attempt. -/
theorem c2_send_budget :
    (∀ (env : Env) (q : Query) (r : Int) (st' : RunState) (σ : Nat),
      mkares_query_perform_nonnull env (some q) = .ok r st' →
      sendCount σ st'.calls ≤ q.attempts) ∧
    (∀ (env : Env) (buff : List Nat) (s : Nat) (fd : Int) (st : RunState)
      (r : Int) (st' : RunState),
      0 < st.q.attempts →
      env.connectRet s = 0 →
      (env.sendRet s 0 < 0 ∨ env.sendRet s 0 ≠ (buff.length : Int)) →
      mkares_query_sendrecv_ env buff s fd st = .ok r st' →
      r = -1 ∧ sendCount s st'.calls = sendCount s st.calls + 1) := by
  constructor
  · intro env q r st' σ h
    exact perform_sendBound h σ
  · intro env buff s fd st r st' hatt hconn hshort h
    unfold mkares_query_sendrecv_ at h
    by_cases hz : buff.length = 0 ∨ fd = -1
    · rw [if_pos hz] at h; exact absurd h (by simp)
    rw [if_neg hz] at h
    dsimp only at h
    rw [if_neg (by simp [hconn])] at h
    rw [show (logCall env st (.connectC s (env.connectRet s))
      none).q.attempts = st.q.attempts from rfl] at h
    cases hA : st.q.attempts with
    | zero => omega
    | succ n =>
      rw [hA] at h
      simp only [sendrecvLoop] at h
      rw [if_pos hshort] at h
      simp only [Step.ok.injEq] at h
      obtain ⟨hr, rfl⟩ := h
      refine ⟨hr.symm, ?_⟩
      rw [sendCount_logCall_send,
        sendCount_logCall_other env st s (.connectC s (env.connectRet s))
          none rfl]

/-- C2, witness: the bound on a full benign run, and the short-send case
on a concrete environment sending 1 byte of a 3-byte query. -/
theorem c2_witness :
    sendCount 0 (stepSt (mkares_query_perform_nonnull envD (some qD))).calls ≤
      qD.attempts ∧
    ((-1 : Int) = -1 ∧
      sendCount 0 (stepSt (mkares_query_sendrecv_ envC2 [1, 2, 3] 0 4
        (initState qD))).calls =
      sendCount 0 (initState qD).calls + 1) :=
  ⟨c2_send_budget.1 envD qD 0
      (stepSt (mkares_query_perform_nonnull envD (some qD))) 0 (by rfl),
    c2_send_budget.2 envC2 [1, 2, 3] 0 4 (initState qD) (-1)
      (stepSt (mkares_query_sendrecv_ envC2 [1, 2, 3] 0 4 (initState qD)))
      (by decide) (by decide) (by decide) (by rfl)⟩

/-- C3, counterexample: the decoder reports NODATA on attempt 1 (after
attempt 0 partially accepted a response and failed on formatting), and
`perform` returns Success immediately — but with a NON-empty address list
`["1.2.3.4"]` and a canonical name taken from the earlier failed attempt,
refuting "returns Success … with an empty address list and with whatever
canonical name was present in the (NODATA) response". -/
theorem c3_counterexample :
    envC1.parseRet 0 1 = .enodata ∧
    stepRet (mkares_query_perform_nonnull envC1 (some qD)) = some 0 ∧
    stepQ (mkares_query_perform_nonnull envC1 (some qD)) =
      some { addresses := ["1.2.3.4"], cname := "x",
             servers := [⟨"8.8.8.8", "53"⟩] } := by
  refine ⟨rfl, rfl, rfl⟩

/-- C3, amended: when the decoder reports NODATA the receive step returns
success immediately with the query object unchanged; the retry loop stops
at that attempt having issued exactly one more send (never retried, no
further send to that server); and a whole `perform` run reaching NODATA —
on a run in which no response is ever parsed successfully — returns
Success with `addresses` and `cname` exactly as they were (the NODATA
response itself contributes neither addresses nor a canonical name). -/
theorem c3_nodata :
    (∀ (env : Env) (s a : Nat) (st : RunState) (fd : Int), fd ≠ -1 →
      0 < env.pollRet s a → 0 < env.recvRet s a →
      env.recvRet s a ≤ intMax → env.parseRet s a = .enodata →
      ∃ st', mkares_query_recv_ env s a st fd = .ok 0 st' ∧
        st'.q = st.q) ∧
    (∀ (env : Env) (buff : List Nat) (s : Nat) (fd : Int) (st : RunState)
      (a fuel : Nat), fd ≠ -1 →
      ¬(env.sendRet s a < 0 ∨ env.sendRet s a ≠ (buff.length : Int)) →
      0 < env.pollRet s a → 0 < env.recvRet s a →
      env.recvRet s a ≤ intMax → env.parseRet s a = .enodata →
      ∃ st', sendrecvLoop env buff s fd st a (fuel + 1) = .ok 0 st' ∧
        st'.q = st.q ∧
        sendCount s st'.calls = sendCount s st.calls + 1) ∧
    (∀ (env : Env) (q : Query) (i a : Nat), wfEnv env →
      (∀ s' a' hh, env.parseRet s' a' ≠ .success hh) →
      env.createQueryRet = 0 → env.createQueryBuff.length ≠ 0 →
      i < q.servers.length →
      (∀ j, j < i →
        serverFails env q.attempts env.createQueryBuff.length j) →
      env.getaddrinfoRet i = 0 → env.socketRet i ≠ -1 →
      env.connectRet i = 0 → a < q.attempts →
      (∀ b, b < a →
        attemptOut env env.createQueryBuff.length i b = none) →
      ¬(env.sendRet i a < 0 ∨
        env.sendRet i a ≠ (env.createQueryBuff.length : Int)) →
      0 < env.pollRet i a → 0 < env.recvRet i a →
      env.parseRet i a = .enodata →
      ∃ st', mkares_query_perform_nonnull env (some q) = .ok 0 st' ∧
        st'.q.addresses = q.addresses ∧ st'.q.cname = q.cname) := by
  refine ⟨?_, ?_, ?_⟩
  · intro env s a st fd hfd hpoll hrecv hbig hp
    exact recv_enodata st hfd hpoll hrecv hbig hp
  · intro env buff s fd st a fuel hfd hsend hpoll hrecv hbig hp
    exact loop_enodata a fuel st hfd hsend hpoll hrecv hbig hp
  · intro env q i a hwf hna hret hbz hi hfail hres hsock hconn ha hwin
      hsend hpoll hrecv hp
    have hout : serverOut env q.attempts env.createQueryBuff.length i = 0 := by
      unfold serverOut sdOut
      rw [if_neg hsock, if_neg (by simp [hconn])]
      refine loopOut_firstSome a q.attempts 0 0
        (fun b hb => by simpa using hwin b hb) ?_ ha
      simp only [Nat.zero_add]
      unfold attemptOut
      rw [if_neg (by simpa using hsend)]
      rw [if_pos ?_]
      unfold recvOut
      rw [if_neg (not_le.mpr hpoll), if_neg (not_le.mpr hrecv), hp]
    obtain ⟨st', heq, -, -⟩ := perform_success hwf hret hbz hi hfail hres hout
    have hq := performRun_master heq
    obtain ⟨haddr, hcname⟩ := QExt_noAcc hna hq.1
    exact ⟨st', heq, haddr, hcname⟩

/-- C3, witness: the three amended statements evaluated on the concrete
environment where attempt 0 fails with a parse error and attempt 1
reports NODATA. -/
theorem c3_witness :
    (∃ st', mkares_query_recv_ envC3 0 1 (initState qD) 4 = .ok 0 st' ∧
      st'.q = (initState qD).q) ∧
    (∃ st', sendrecvLoop envC3 [1, 2, 3] 0 4 (initState qD) 1 (1 + 1) =
        .ok 0 st' ∧
      st'.q = (initState qD).q ∧
      sendCount 0 st'.calls = sendCount 0 (initState qD).calls + 1) ∧
    (∃ st', mkares_query_perform_nonnull envC3 (some qD) = .ok 0 st' ∧
      st'.q.addresses = qD.addresses ∧ st'.q.cname = qD.cname) :=
  ⟨c3_nodata.1 envC3 0 1 (initState qD) 4 (by decide) (by decide) (by decide)
      (by exact (by decide : (20 : Int) ≤ intMax)) (by decide),
    c3_nodata.2.1 envC3 [1, 2, 3] 0 4 (initState qD) 1 1 (by decide)
      (by decide) (by decide) (by decide)
      (by exact (by decide : (20 : Int) ≤ intMax)) (by decide),
    c3_nodata.2.2 envC3 qD 0 1 wfEnv_envC3 noAcc_envC3 (by decide) (by decide)
      (by decide) (fun j hj => absurd hj (Nat.not_lt_zero j)) (by decide)
      (by decide) (by decide) (by decide)
      (fun b hb => by
        have hb0 : b = 0 := by omega
        subst hb0
        decide)
      (by decide) (by decide) (by decide) (by decide)⟩

/-- C4: the orchestrator tries servers exactly in configured order (the
`getaddrinfo` trace is `0, 1, 2, …`), a server whose numeric resolution
fails is skipped (it still appears in the resolution trace, covered by
`serverFails`), the first server reporting success makes `perform` return
Success with no operation on any later server, and if every server fails
`perform` returns Failure after resolving all of them in order. -/
theorem c4_iteration :
    (∀ (env : Env) (q : Query), wfEnv env →
      env.createQueryRet = 0 → env.createQueryBuff.length ≠ 0 →
      (∀ j, j < q.servers.length →
        serverFails env q.attempts env.createQueryBuff.length j) →
      ∃ st', mkares_query_perform_nonnull env (some q) = .ok (-1) st' ∧
        getSeq st'.calls = List.range q.servers.length) ∧
    (∀ (env : Env) (q : Query) (i : Nat), wfEnv env →
      env.createQueryRet = 0 → env.createQueryBuff.length ≠ 0 →
      i < q.servers.length →
      (∀ j, j < i →
        serverFails env q.attempts env.createQueryBuff.length j) →
      env.getaddrinfoRet i = 0 →
      serverOut env q.attempts env.createQueryBuff.length i = 0 →
      ∃ st', mkares_query_perform_nonnull env (some q) = .ok 0 st' ∧
        getSeq st'.calls = List.range (i + 1) ∧
        ∀ c ∈ st'.calls, (∃ rr, c = .createQuery rr) ∨
          ∃ j, j ≤ i ∧ evServer c = some j) := by
  constructor
  · intro env q hwf hret hbz hfail
    obtain ⟨st', heq, hseq⟩ := perform_allfail hwf hret hbz hfail
    exact ⟨st', heq, hseq⟩
  · intro env q i hwf hret hbz hi hfail hres hout
    obtain ⟨st', heq, hseq, hmem⟩ :=
      perform_success hwf hret hbz hi hfail hres hout
    exact ⟨st', heq, hseq, hmem⟩

/-- C4, witness: the all-fail statement on an environment where connect is
refused, and the first-success statement on the benign environment. -/
theorem c4_witness :
    (∃ st', mkares_query_perform_nonnull envC4 (some qD) = .ok (-1) st' ∧
      getSeq st'.calls = List.range qD.servers.length) ∧
    (∃ st', mkares_query_perform_nonnull envD (some qD) = .ok 0 st' ∧
      getSeq st'.calls = List.range (0 + 1) ∧
      ∀ c ∈ st'.calls, (∃ rr, c = .createQuery rr) ∨
        ∃ j, j ≤ 0 ∧ evServer c = some j) :=
  ⟨c4_iteration.1 envC4 qD wfEnv_envC4 (by decide) (by decide)
      (fun j hj => by
        have hj0 : j = 0 := by
          have : qD.servers.length = 1 := by decide
          omega
        subst hj0
        exact Or.inr (by decide)),
    c4_iteration.2 envD qD 0 wfEnv_envD (by decide) (by decide) (by decide)
      (fun j hj => absurd hj (Nat.not_lt_zero j)) (by decide) (by decide)⟩

/-- C5: with an empty server list, `perform` returns Failure, and the only
external operation performed is the query encoding — no resolution,
socket, connect, send, poll or receive happens.  The hypothesis reflects
the encoder's guarantee that a successful encoding is nonempty (a DNS
query has at least a 12-byte header); an empty success would abort the
process in `mkares_query_try_each_server_`. -/
theorem c5_empty_servers (env : Env) (q : Query) (hempty : q.servers = [])
    (hbz : env.createQueryRet = 0 → env.createQueryBuff.length ≠ 0) :
    ∃ st', mkares_query_perform_nonnull env (some q) = .ok (-1) st' ∧
      ∀ c ∈ st'.calls, ∃ rr, c = .createQuery rr := by
  show ∃ st', performRun env q = .ok (-1) st' ∧ _
  unfold performRun
  dsimp only
  by_cases hret : env.createQueryRet ≠ 0
  · rw [if_pos hret]
    refine ⟨_, rfl, ?_⟩
    intro c hc
    simp [logCall, initState] at hc
    exact ⟨env.createQueryRet, hc⟩
  · rw [if_neg hret]
    unfold mkares_query_try_each_server_
    rw [if_neg (hbz (by simpa using hret))]
    have hsrv : (logCall env (initState q) (.createQuery env.createQueryRet)
        none).q.servers = [] := hempty
    rw [hsrv]
    simp only [tryEachLoop]
    refine ⟨_, rfl, ?_⟩
    intro c hc
    simp [logCall, initState] at hc
    exact ⟨env.createQueryRet, hc⟩

/-- C5, witness: evaluated on the benign environment and a fresh query. -/
theorem c5_witness :
    ∃ st', mkares_query_perform_nonnull envD (some qE) = .ok (-1) st' ∧
      ∀ c ∈ st'.calls, ∃ rr, c = .createQuery rr :=
  c5_empty_servers envD qE rfl (fun _ => by decide)

/-- C6, counterexample: a full successful run on one server logs exactly
the records of the external calls — encoding, resolution, socket open,
connect, send, poll, receive, decode and per-record formatting — and NO
record for the per-server outcome or the overall outcome, although both
outcomes were produced (the run returned success).  This refutes the part
of the claim requiring one record per per-server outcome and per overall
outcome; the socket close is likewise performed silently. -/
theorem c6_counterexample :
    stepRet (mkares_query_perform_nonnull envD (some qD)) = some 0 ∧
    (stepSt (mkares_query_perform_nonnull envD (some qD))).log.map
        LogEvent.func =
      ["ares_create_query", "getaddrinfo", "socket", "connect", "send",
        "poll", "recv", "ares_parse_a_reply", "inet_ntop", "inet_ntop"] ∧
    ((stepSt (mkares_query_perform_nonnull envD (some qD))).log.filter
      (fun e => e.func = "mkares_query_try_server_")).length = 0 := by
  refine ⟨rfl, rfl, rfl⟩

/-- C6, amended: on every run, the log contains exactly one record per
logged external operation (encode, resolve, socket open, connect, send,
poll, receive, decode, per-record formatting) in operation order, each
carrying that operation's name and return value (`expectedLog`); socket
close and the per-server and overall outcomes emit no record; the `k`-th
record carries the clock reading at emission `k`, so for a monotone
(steady) clock the timestamps across the full log are non-decreasing.
Emission itself has no failure path (the source discards `fprintf`'s
result), so logging never aborts the query. -/
theorem c6_log_records (env : Env) (q : Query) (r : Int) (st' : RunState)
    (h : mkares_query_perform_nonnull env (some q) = .ok r st') :
    st'.log.map (fun e => (e.func, e.ret)) = st'.calls.flatMap expectedLog ∧
    st'.log.map LogEvent.now = (List.range st'.log.length).map env.clock ∧
    (Monotone env.clock →
      List.Chain' (· ≤ ·) (st'.log.map LogEvent.now)) := by
  have h' : performRun env q = .ok r st' := h
  obtain ⟨-, ⟨ht, hmap, hnow⟩, -⟩ := performRun_master h'
  refine ⟨hmap, hnow, fun hmono => ?_⟩
  rw [hnow]
  exact chainClock env.clock hmono st'.log.length

/-- C6, witness: the amended theorem evaluated on a full benign run with
the identity (monotone) clock. -/
theorem c6_witness :
    (stepSt (mkares_query_perform_nonnull envD (some qD))).log.map
        (fun e => (e.func, e.ret)) =
      (stepSt (mkares_query_perform_nonnull envD (some qD))).calls.flatMap
        expectedLog ∧
    List.Chain' (· ≤ ·)
      ((stepSt (mkares_query_perform_nonnull envD (some qD))).log.map
        LogEvent.now) := by
  have h := c6_log_records envD qD 0
    (stepSt (mkares_query_perform_nonnull envD (some qD))) (by rfl)
  exact ⟨h.1, h.2.2 (fun _ _ hxy => hxy)⟩

/-- C7: if encoding the query fails, `perform` returns Failure with the
encoding attempt as the only external operation performed — no server is
resolved or contacted and nothing but the `ares_create_query` record is
logged. -/
theorem c7_encode_failure (env : Env) (q : Query)
    (hret : env.createQueryRet ≠ 0) :
    ∃ st', mkares_query_perform_nonnull env (some q) = .ok (-1) st' ∧
      st'.calls = [.createQuery env.createQueryRet] ∧
      st'.log.map LogEvent.func = ["ares_create_query"] := by
  show ∃ st', performRun env q = .ok (-1) st' ∧ _
  unfold performRun
  dsimp only
  rw [if_pos hret]
  exact ⟨_, rfl, rfl, rfl⟩

/-- C7, witness: evaluated on an environment whose encoder fails with
code 11. -/
theorem c7_witness :
    ∃ st', mkares_query_perform_nonnull envC7 (some qD) = .ok (-1) st' ∧
      st'.calls = [.createQuery envC7.createQueryRet] ∧
      st'.log.map LogEvent.func = ["ares_create_query"] :=
  c7_encode_failure envC7 qD (by decide)

/-- C8: socket discipline.  On every completed run the socket-accounting
automaton accepts the whole call trace with final count 0: a successful
`socket()` is the only opening step and is legal only when no socket is
open, so at most one socket is ever open at any time; every prefix of the
trace has 0 or 1 sockets open; and at return every opened socket has been
closed — which also means the socket of one server is closed before the
next server's `getaddrinfo`/`socket` (those steps keep the count, so an
unclosed socket would make the next successful open hit count 1 and the
automaton would reject, contradicting acceptance). -/
theorem c8_socket_discipline (env : Env) (q : Query) (r : Int)
    (st' : RunState)
    (h : mkares_query_perform_nonnull env (some q) = .ok r st') :
    openAfter st'.calls = some 0 ∧
    ∀ p t, st'.calls = p ++ t → ∃ c, openAfter p = some c ∧ c ≤ 1 := by
  have h' : performRun env q = .ok r st' := h
  have hopen := (performRun_master h').2.2
  refine ⟨hopen, ?_⟩
  intro p t hpt
  rw [hpt, openAfter, List.foldl_append] at hopen
  cases hov : List.foldl sockStep (some 0) p with
  | none => rw [hov, foldl_sockStep_none] at hopen; exact absurd hopen (by simp)
  | some c =>
    exact ⟨c, by rw [openAfter]; exact hov,
      foldl_sockStep_le_one p 0 (by omega) c hov⟩

/-- C8, witness: the discipline evaluated on a full benign run. -/
theorem c8_witness :
    openAfter (stepSt (mkares_query_perform_nonnull envD (some qD))).calls =
      some 0 :=
  (c8_socket_discipline envD qD 0
    (stepSt (mkares_query_perform_nonnull envD (some qD))) (by rfl)).1

/-- C9: every contract violation at the public surface stops the process:
a null query or null string argument to any setter or getter, a null query
passed to `perform`, and an out-of-range index passed to the
address-by-index accessor all hit `MKARES_ABORT()` (modelled `abortProc`
and `fatal`), never a Failure return value. -/
theorem c9_contract_violations (env : Env) (q : Query)
    (n ad po : Option String) (i : Nat) (idx : Nat) :
    mkares_query_set_name none n = .abortProc ∧
    mkares_query_set_name (some q) none = .abortProc ∧
    mkares_query_add_server none ad po = .abortProc ∧
    mkares_query_add_server (some q) none po = .abortProc ∧
    mkares_query_add_server (some q) ad none = .abortProc ∧
    mkares_query_set_AAAA none = .abortProc ∧
    mkares_query_set_id none i = .abortProc ∧
    mkares_query_get_cname none = .abortProc ∧
    mkares_query_get_addresses_size none = .abortProc ∧
    mkares_query_get_address_at none idx = .abortProc ∧
    (q.addresses.length ≤ idx →
      mkares_query_get_address_at (some q) idx = .abortProc) ∧
    mkares_query_perform_nonnull env none = .fatal := by
  refine ⟨?_, rfl, ?_, ?_, ?_, rfl, rfl, rfl, rfl, rfl, ?_, rfl⟩
  · cases n <;> rfl
  · cases ad <;> cases po <;> rfl
  · cases po <;> rfl
  · cases ad <;> rfl
  · intro hidx
    unfold mkares_query_get_address_at
    dsimp only
    rw [dif_neg (Nat.not_lt.mpr hidx)]

/-- C9, witness: the out-of-range branch evaluated on a fresh query and
index 0 (the address list is empty), plus a null-name violation. -/
theorem c9_witness :
    (mkares_query_new_nonnull.addresses.length ≤ 0 ∧
      mkares_query_get_address_at (some mkares_query_new_nonnull) 0 =
        .abortProc) ∧
    mkares_query_set_name none (some "x") = .abortProc :=
  ⟨⟨by decide,
      (c9_contract_violations envD mkares_query_new_nonnull (some "x")
        (some "x") (some "x") 0 0).2.2.2.2.2.2.2.2.2.2.1 (by decide)⟩,
    (c9_contract_violations envD mkares_query_new_nonnull (some "x")
      (some "x") (some "x") 0 0).1⟩

/-- C10: the Result fields are append-only across one `perform` run: the
final `addresses` is the initial one plus appended entries, each formatted
from a record of some successfully parsed response; `cname` is either
untouched or the host name of some successfully parsed response; the
configuration fields are untouched.  The accessor layer likewise never
touches `addresses` or `cname`: the four setters change exactly their own
field. -/
theorem c10_append_only (env : Env) (q : Query) (r : Int) (st' : RunState)
    (h : mkares_query_perform_nonnull env (some q) = .ok r st') :
    (∃ t, st'.q.addresses = q.addresses ++ t ∧ ∀ x ∈ t, addrProv env x) ∧
    (st'.q.cname = q.cname ∨
      ∃ s a hh, env.parseRet s a = .success hh ∧
        hh.h_name = some st'.q.cname) ∧
    qFieldsEq q st'.q ∧
    (∀ (q0 : Query) (nm : String),
      mkares_query_set_name (some q0) (some nm) =
        .ok { q0 with name := nm }) ∧
    (∀ (q0 : Query) (ad po : String),
      mkares_query_add_server (some q0) (some ad) (some po) =
        .ok { q0 with servers := q0.servers ++ [⟨ad, po⟩] }) ∧
    (∀ q0 : Query,
      mkares_query_set_AAAA (some q0) = .ok { q0 with qtype := .AAAA }) ∧
    (∀ (q0 : Query) (i : Nat),
      mkares_query_set_id (some q0) i = .ok { q0 with id := i % 65536 }) := by
  have h' : performRun env q = .ok r st' := h
  obtain ⟨⟨ha, hc, hf⟩, -, -⟩ := performRun_master h'
  exact ⟨ha, hc, hf, fun q0 nm => rfl, fun q0 ad po => rfl, fun q0 => rfl,
    fun q0 i => rfl⟩

/-- C10, witness: the append-only description evaluated on a full benign
run (which appends two formatted addresses). -/
theorem c10_witness :
    ∃ t, (stepSt (mkares_query_perform_nonnull envD (some qD))).q.addresses =
        qD.addresses ++ t ∧ ∀ x ∈ t, addrProv envD x :=
  (c10_append_only envD qD 0
    (stepSt (mkares_query_perform_nonnull envD (some qD))) (by rfl)).1

end Mkares
